import Mathlib

/-!
# The NetBSD router of `wgengine/router/osrouter/router_netbsd.go`

A shallow embedding of `netbsdRouter.Set`: the router keeps the last attempted
IPv4 address, IPv6 address and route set, and on every configuration update
issues `ifconfig` / `route` commands for the difference.

* `net/netip` values are modelled by `netip.Addr` and `netip.Prefix`, with the
  text forms of `Addr.String` and `Prefix.String`.
* External commands go through an `Executor`, which decides for every command,
  given the commands already issued in the call, whether it fails.
* Go's `set.Set[netip.Prefix]` is a duplicate-free list; the unspecified order
  in which `range` visits a map is a `MapOrder`.
* Every issued command is recorded with the call site that issued it.
-/

namespace netip

/-- The address part of a `netip.Prefix`. Prefixes never carry a zone, so an
address is the zero `Addr`, an IPv4 address (32 bits) or an IPv6 address
(128 bits, IPv4-mapped addresses included). -/
inductive Addr where
  | zero : Addr
  | v4 (a : Nat) : Addr
  | v6 (a : Nat) : Addr
deriving DecidableEq, Repr

namespace Addr

/-- `Addr.Is4`: an IPv4 address; false for IPv4-mapped IPv6 addresses. -/
def Is4 : Addr → Bool
  | v4 _ => true
  | _ => false

/-- `Addr.Is6`: an IPv6 address, IPv4-mapped IPv6 addresses included. -/
def Is6 : Addr → Bool
  | v6 _ => true
  | _ => false

/-- `Addr.BitLen`: 32, 128, or 0 for the zero address. -/
def BitLen : Addr → Nat
  | zero => 0
  | v4 _ => 32
  | v6 _ => 128

/-- `Addr.isZero`. -/
def isZero : Addr → Bool
  | zero => true
  | _ => false

/-- `Addr.Is4In6`: the high 64 bits are zero and bits 32..63 of the low half
are `0xffff`. -/
def Is4In6 : Addr → Bool
  | v6 a => decide ((a % 2 ^ 128) / 2 ^ 32 = 0xffff)
  | _ => false

/-- The byte `i` (0 is the most significant) of a 32 bit value. -/
def byte4 (a i : Nat) : Nat := (a / 2 ^ ((3 - i) * 8)) % 256

/-- `Addr.string4`: dotted decimal. -/
def string4 (a : Nat) : String :=
  toString (byte4 a 0) ++ "." ++ toString (byte4 a 1) ++ "." ++
    toString (byte4 a 2) ++ "." ++ toString (byte4 a 3)

/-- `Addr.v6u16`: the 16 bit field `i` (0 is the most significant). -/
def v6u16 (a i : Nat) : Nat := (a / 2 ^ ((7 - i) * 16)) % 65536

/-- The inner loop of `appendTo6`: the first index from `j` on whose field
is not zero (8 when there is none). -/
def zeroRunEnd (a : Nat) : Nat → Nat → Nat
  | 0, j => j
  | fuel + 1, j => if j < 8 ∧ v6u16 a j = 0 then zeroRunEnd a fuel (j + 1) else j

/-- The first loop of `appendTo6`: the longest run of at least two zero
fields, the leftmost one on a tie; `(255, 255)` when there is none. -/
def zeroRun (a : Nat) : Nat × Nat :=
  (List.range 8).foldl
    (fun z i =>
      let j := zeroRunEnd a 8 i
      if j - i ≥ 2 ∧ j - i > z.2 - z.1 then (i, j) else z)
    (255, 255)

/-- `appendHex`: lower case hexadecimal without leading zeros. -/
def hex (n : Nat) : String := String.mk (Nat.toDigits 16 n)

/-- The second loop of `appendTo6`, from field `i` on. -/
def fields6 (a zs ze : Nat) : Nat → Nat → String
  | 0, _ => ""
  | fuel + 1, i =>
    if i ≥ 8 then ""
    else if i = zs then
      "::" ++ (if ze ≥ 8 then "" else hex (v6u16 a ze) ++ fields6 a zs ze fuel (ze + 1))
    else
      (if i > 0 then ":" else "") ++ hex (v6u16 a i) ++ fields6 a zs ze fuel (i + 1)

/-- `Addr.string6`. -/
def string6 (a : Nat) : String :=
  fields6 a (zeroRun a).1 (zeroRun a).2 9 0

/-- `Addr.String`. -/
def String : Addr → String
  | zero => "invalid IP"
  | v4 a => string4 a
  | v6 a => if Is4In6 (v6 a) then "::ffff:" ++ string4 (a % 2 ^ 32) else string6 a

end Addr

/-- `netip.Prefix`: an address and `bitsPlusOne`, the mask length plus one;
the prefix is valid if and only if `bitsPlusOne` is not zero. The zero value
`Prefix{}` is the zero address with `bitsPlusOne = 0`. -/
structure Prefix where
  ip : netip.Addr
  bitsPlusOne : Nat
deriving DecidableEq, Repr

end netip

/-- `Prefix.Addr`. -/
def netip.Prefix.Addr (p : netip.Prefix) : netip.Addr := p.ip

/-- `Prefix.Bits`: the mask length, `-1` for an invalid prefix. -/
def netip.Prefix.Bits (p : netip.Prefix) : Int := (p.bitsPlusOne : Int) - 1

/-- `Prefix.IsValid`. -/
def netip.Prefix.IsValid (p : netip.Prefix) : Bool := decide (p.bitsPlusOne > 0)

/-- `Prefix.String`. -/
def netip.Prefix.String (p : netip.Prefix) : String :=
  if !p.IsValid then "invalid Prefix"
  else p.ip.String ++ "/" ++ toString p.Bits

/-- `netip.PrefixFrom`: keeps the address as it is (host bits are not masked
off); the mask length is invalid when the address is zero or `bits` is out of
range for it. -/
def netip.PrefixFrom (ip : netip.Addr) (bits : Int) : netip.Prefix :=
  { ip := ip
    bitsPlusOne := if !ip.isZero ∧ 0 ≤ bits ∧ bits ≤ (ip.BitLen : Int) then bits.toNat + 1 else 0 }

namespace osrouter

open netip (Prefix PrefixFrom)

/-- `net.IP.Mask` of `netipx.PrefixIPNet(route)`, as the address value left
after clearing the bits beyond the mask length `ones` of an address of
`width` bits. -/
def maskedIP (a width ones : Nat) : Nat :=
  ((a % 2 ^ width) / 2 ^ (width - ones)) * 2 ^ (width - ones)

/-- The destination text of a route, `fmt.Sprintf("%v/%d", nip, route.Bits())`
with `nip = net.IP.Mask(net.Mask)` for `net = netipx.PrefixIPNet(route)`.
`PrefixIPNet` of an invalid prefix is the empty `IPNet`, and `net.IP.String`
prints an empty IP as `<nil>` and an IPv4-mapped 16 byte IP in dotted form. -/
def routeDest (route : Prefix) : String :=
  let nip : String :=
    if !route.IsValid then "<nil>"
    else
      match route.ip with
      | .zero => "<nil>"
      | .v4 a =>
        if route.bitsPlusOne - 1 > 32 then "<nil>"
        else netip.Addr.string4 (maskedIP a 32 (route.bitsPlusOne - 1))
      | .v6 a =>
        if route.bitsPlusOne - 1 > 128 then "<nil>"
        else
          let m := maskedIP a 128 (route.bitsPlusOne - 1)
          if netip.Addr.Is4In6 (.v6 m) then netip.Addr.string4 (m % 2 ^ 32)
          else netip.Addr.string6 m
  nip ++ "/" ++ toString route.Bits

/-- The function `inet`. -/
def inet (p : Prefix) : String :=
  if p.Addr.Is6 then "inet6" else "inet"

/-- The error of a failed external command (`CombinedOutput`). -/
structure ExecError where
  msg : String
deriving DecidableEq, Repr

/-- The errors `Set` returns: its own configuration error
(`errors.New("netbsd doesn't support setting multiple local addrs yet")`),
or the error of a command. -/
inductive Error where
  | multipleLocalAddrs : Error
  | command (e : ExecError) : Error
deriving DecidableEq, Repr

/-- The places of `Set` that run a command: the IPv4 alias delete and its
host route delete, the IPv4 alias add and its host route add, the IPv6
address delete and add, and the two loops over the route sets. -/
inductive Site where
  | addr4Del : Site
  | host4Del : Site
  | addr4Add : Site
  | host4Add : Site
  | addr6Del : Site
  | addr6Add : Site
  | routeDel (route : Prefix) : Site
  | routeAdd (route : Prefix) : Site
deriving DecidableEq, Repr

/-- A command as issued: the place that issued it and its argument vector. -/
structure Cmd where
  site : Site
  argv : List String
deriving DecidableEq, Repr

/-- The outside world of `cmd(...).CombinedOutput()`: given the argument
vectors already run in this call and the one to run, the error, if any. -/
abbrev Executor := List (List String) → List String → Option ExecError

/-- The order in which `range` visits the elements of a map: some
rearrangement of them, one for the loop over the applied routes and one for
the loop over the new routes. -/
structure MapOrder where
  old : List Prefix → List Prefix
  new : List Prefix → List Prefix
  old_perm : ∀ l, (old l).Perm l
  new_perm : ∀ l, (new l).Perm l

/-- The order in which the elements were inserted. -/
def MapOrder.insertion : MapOrder :=
  { old := id, new := id, old_perm := fun l => List.Perm.refl l, new_perm := fun l => List.Perm.refl l }

/-- The fields of `router.Config` that `Set` reads. -/
structure Config where
  LocalAddrs : List Prefix
  Routes : List Prefix
deriving DecidableEq, Repr

/-- Modelled from the spec: shutdownConfig, declared outside this file, is the
canonical all-empty desired configuration (no addresses, no routes). -/
def shutdownConfig : Config := { LocalAddrs := [], Routes := [] }

/-- The fields of `netbsdRouter` that `Set` reads and writes; `routes` is the
set of applied routes as a list without duplicates. -/
structure netbsdRouter where
  tunname : String
  local4 : Prefix
  local6 : Prefix
  routes : List Prefix
deriving DecidableEq, Repr

/-- The router as `newUserspaceRouter` makes it: nothing applied. -/
def newUserspaceRouter (tunname : String) : netbsdRouter :=
  { tunname := tunname, local4 := ⟨.zero, 0⟩, local6 := ⟨.zero, 0⟩, routes := [] }

/-- The commands run so far in a call of `Set`, and `errq`. -/
structure Run where
  log : List Cmd
  errq : Option ExecError

/-- One `cmd(argv...).CombinedOutput()` with the error handling that follows
it everywhere in `Set`: the command runs, and its error is kept only if
`errq` is still nil. -/
def Run.issue (ex : Executor) (s : Run) (c : Cmd) : Run :=
  let err := ex (s.log.map Cmd.argv) c.argv
  { log := s.log ++ [c]
    errq := match s.errq with
      | some e => some e
      | none => err }

/-- What the loop over `cfg.LocalAddrs` computes. -/
structure LocalScan where
  numIPv4 : Nat
  numIPv6 : Nat
  localAddr4 : Prefix
  localAddr6 : Prefix
deriving DecidableEq, Repr

/-- One round of the loop over `cfg.LocalAddrs`. -/
def LocalScan.step (s : LocalScan) (addr : Prefix) : LocalScan :=
  let s := if addr.Addr.Is4 then { s with numIPv4 := s.numIPv4 + 1, localAddr4 := addr } else s
  if addr.Addr.Is6 then { s with numIPv6 := s.numIPv6 + 1, localAddr6 := addr } else s

/-- The loop over `cfg.LocalAddrs`. -/
def scanLocalAddrs (addrs : List Prefix) : LocalScan :=
  addrs.foldl LocalScan.step ⟨0, 0, ⟨.zero, 0⟩, ⟨.zero, 0⟩⟩

/-- The block `if localAddr4 != r.local4 ... `. -/
def setLocal4 (ex : Executor) (tunname : String) (local4 localAddr4 : Prefix) (s : Run) : Run :=
  if localAddr4 ≠ local4 then
    let s :=
      if local4.IsValid then
        let s := s.issue ex ⟨.addr4Del, ["ifconfig", tunname, "inet", local4.String, "-alias"]⟩
        s.issue ex ⟨.host4Del, ["route", "-q", "-n", "delete", "-inet", local4.String,
          "-iface", local4.Addr.String]⟩
      else s
    if localAddr4.IsValid then
      let s := s.issue ex ⟨.addr4Add, ["ifconfig", tunname, "inet", localAddr4.String, "alias"]⟩
      s.issue ex ⟨.host4Add, ["route", "-q", "-n", "add", "-inet", localAddr4.String,
        "-iface", localAddr4.Addr.String]⟩
    else s
  else s

/-- The block `localAddr6 = netip.PrefixFrom(localAddr6.Addr(), 48)` under `if localAddr6.IsValid()`. -/
def normalize6 (localAddr6 : Prefix) : Prefix :=
  if localAddr6.IsValid then PrefixFrom localAddr6.Addr 48 else localAddr6

/-- The block `if localAddr6 != r.local6 ... `. -/
def setLocal6 (ex : Executor) (tunname : String) (local6 localAddr6 : Prefix) (s : Run) : Run :=
  if localAddr6 ≠ local6 then
    let s :=
      if local6.IsValid then
        s.issue ex ⟨.addr6Del, ["ifconfig", tunname, "inet6", local6.String, "delete"]⟩
      else s
    if localAddr6.IsValid then
      s.issue ex ⟨.addr6Add, ["ifconfig", tunname, "inet6", localAddr6.String]⟩
    else s
  else s

/-- `set.Set.Add`. -/
def setAdd (s : List Prefix) (route : Prefix) : List Prefix :=
  if route ∈ s then s else s ++ [route]

/-- The loop that fills `newRoutes` from `cfg.Routes`. -/
def mkNewRoutes (routes : List Prefix) : List Prefix :=
  routes.foldl setAdd []

/-- The `-iface` argument of a route command: the text of the desired IPv4
address, or of the desired IPv6 address for an IPv6 route. -/
def routeIface (localAddr4 localAddr6 route : Prefix) : String :=
  if route.Addr.Is6 then localAddr6.Addr.String else localAddr4.Addr.String

/-- The command of the loop over `r.routes`. -/
def routedel (localAddr4 localAddr6 route : Prefix) : Cmd :=
  ⟨.routeDel route, ["route", "-q", "-n", "del", "-" ++ inet route, routeDest route,
    "-iface", routeIface localAddr4 localAddr6 route]⟩

/-- The command of the loop over `newRoutes`. -/
def routeadd (localAddr4 localAddr6 route : Prefix) : Cmd :=
  ⟨.routeAdd route, ["route", "-q", "-n", "add", "-" ++ inet route, routeDest route,
    "-iface", routeIface localAddr4 localAddr6 route]⟩

/-- The loop `for route := range r.routes`, visiting the routes in the order
`visit`: a route that is not in `newRoutes` is deleted. -/
def delRoutes (ex : Executor) (localAddr4 localAddr6 : Prefix) (newRoutes visit : List Prefix)
    (s : Run) : Run :=
  visit.foldl
    (fun s route => if route ∈ newRoutes then s else s.issue ex (routedel localAddr4 localAddr6 route))
    s

/-- The loop `for route := range newRoutes`, visiting the routes in the order
`visit`: a route that is not in `r.routes` is added. -/
def addRoutes (ex : Executor) (localAddr4 localAddr6 : Prefix) (routes visit : List Prefix)
    (s : Run) : Run :=
  visit.foldl
    (fun s route => if route ∈ routes then s else s.issue ex (routeadd localAddr4 localAddr6 route))
    s

/-- What a call of `Set` leaves: the router, the commands it ran in order, and
the error it returns. -/
structure SetResult where
  router : netbsdRouter
  cmds : List Cmd
  err : Option Error

/-- The method `netbsdRouter.Set`; `cfg = none` is the nil pointer. -/
def Set (ex : Executor) (ord : MapOrder) (r : netbsdRouter) (cfg : Option Config) : SetResult :=
  let cfg := match cfg with
    | none => shutdownConfig
    | some c => c
  if cfg.LocalAddrs.length = 0 then ⟨r, [], none⟩
  else
    let scan := scanLocalAddrs cfg.LocalAddrs
    if scan.numIPv4 > 1 ∨ scan.numIPv6 > 1 then ⟨r, [], some Error.multipleLocalAddrs⟩
    else
      let localAddr4 := scan.localAddr4
      let s := setLocal4 ex r.tunname r.local4 localAddr4 ⟨[], none⟩
      let localAddr6 := normalize6 scan.localAddr6
      let s := setLocal6 ex r.tunname r.local6 localAddr6 s
      let newRoutes := mkNewRoutes cfg.Routes
      let s := delRoutes ex localAddr4 localAddr6 newRoutes (ord.old r.routes) s
      let s := addRoutes ex localAddr4 localAddr6 r.routes (ord.new newRoutes) s
      ⟨{ r with local4 := localAddr4, local6 := localAddr6, routes := newRoutes }, s.log,
        s.errq.map Error.command⟩

/-! ## Notions the properties are stated with -/

/-- The commands of the block `if localAddr4 != r.local4`, in order. -/
def local4Cmds (tunname : String) (local4 localAddr4 : Prefix) : List Cmd :=
  if localAddr4 = local4 then []
  else
    (if local4.IsValid then
      [⟨.addr4Del, ["ifconfig", tunname, "inet", local4.String, "-alias"]⟩,
       ⟨.host4Del, ["route", "-q", "-n", "delete", "-inet", local4.String,
          "-iface", local4.Addr.String]⟩]
     else []) ++
    (if localAddr4.IsValid then
      [⟨.addr4Add, ["ifconfig", tunname, "inet", localAddr4.String, "alias"]⟩,
       ⟨.host4Add, ["route", "-q", "-n", "add", "-inet", localAddr4.String,
          "-iface", localAddr4.Addr.String]⟩]
     else [])

/-- The commands of the block `if localAddr6 != r.local6`, in order. -/
def local6Cmds (tunname : String) (local6 localAddr6 : Prefix) : List Cmd :=
  if localAddr6 = local6 then []
  else
    (if local6.IsValid then
      [⟨.addr6Del, ["ifconfig", tunname, "inet6", local6.String, "delete"]⟩]
     else []) ++
    (if localAddr6.IsValid then
      [⟨.addr6Add, ["ifconfig", tunname, "inet6", localAddr6.String]⟩]
     else [])

/-- The error of the earliest failing command when the commands `cs` are run
in order after the commands `hist`. -/
def firstFailure (ex : Executor) : List (List String) → List Cmd → Option ExecError
  | _, [] => none
  | hist, c :: cs =>
    match ex hist c.argv with
    | some e => some e
    | none => firstFailure ex (hist ++ [c.argv]) cs

/-- The result of the command at position `i` of the sequence `cs`: what the
executor answers for it after the commands before it. -/
def outcome (ex : Executor) (cs : List Cmd) (i : Nat) : Option ExecError :=
  match cs[i]? with
  | none => none
  | some c => ex ((cs.take i).map Cmd.argv) c.argv

/-- Running a list of commands one after the other. -/
def Run.issueAll (ex : Executor) (s : Run) (cs : List Cmd) : Run :=
  cs.foldl (Run.issue ex) s

/-- An address command: an IPv4 alias command or its companion host route, or
an IPv6 address command. -/
def Site.isAddress : Site → Bool
  | .routeDel _ => false
  | .routeAdd _ => false
  | _ => true

/-- A command of the two loops over the route sets. -/
def Site.isRouteSet : Site → Bool
  | .routeDel _ => true
  | .routeAdd _ => true
  | _ => false

/-- An IPv4 address command: the alias delete or add, or its host route. -/
def Site.isLocal4 : Site → Bool
  | .addr4Del => true
  | .host4Del => true
  | .addr4Add => true
  | .host4Add => true
  | _ => false

/-- The local addresses of a desired configuration; the nil configuration
has none. -/
def desiredAddrs : Option Config → List Prefix
  | none => []
  | some c => c.LocalAddrs

/-- The number of IPv4 addresses among local addresses. -/
def countIPv4 (addrs : List Prefix) : Nat := addrs.countP fun a => a.Addr.Is4

/-- The number of IPv6 addresses among local addresses. -/
def countIPv6 (addrs : List Prefix) : Nat := addrs.countP fun a => a.Addr.Is6

/-- The IPv4 address among local addresses, the zero prefix (absent) if
there is none. -/
def desired4 (addrs : List Prefix) : Prefix :=
  (addrs.find? fun a => a.Addr.Is4).getD ⟨.zero, 0⟩

/-- The IPv6 address among local addresses, the zero prefix (absent) if
there is none. -/
def desired6 (addrs : List Prefix) : Prefix :=
  (addrs.find? fun a => a.Addr.Is6).getD ⟨.zero, 0⟩

/-- An IPv4 prefix from its four bytes and mask length, as `a.b.c.d/bits`. -/
def prefix4 (a b c d bits : Nat) : Prefix :=
  ⟨.v4 (((a * 256 + b) * 256 + c) * 256 + d), bits + 1⟩

/-- An executor under which every command succeeds. -/
def okExec : Executor := fun _ _ => none

/-- An executor under which the commands at positions `n`, `n + 1`, ... of a
call fail (positions count from 0), each with an error naming its position. -/
def failFrom (n : Nat) : Executor := fun hist _ =>
  if n ≤ hist.length then some ⟨"command " ++ toString hist.length ++ " failed"⟩ else none

/-- An executor under which every command fails. -/
def failExec : Executor := fun _ argv => some ⟨"exit status 1: " ++ " ".intercalate argv⟩

/-- A sequence of calls of `Set`, each with its own executor and map order,
and the router it leaves. -/
def SetSeq (r : netbsdRouter) : List (Executor × MapOrder × Option Config) → netbsdRouter
  | [] => r
  | (ex, ord, cfg) :: rest => SetSeq (Set ex ord r cfg).router rest

/-- The commands an accepted configuration makes `Set` run, in order: the
IPv4 block, the IPv6 block, the deletes of the routes no longer wanted, the
adds of the new routes. -/
def SetPlan (ord : MapOrder) (r : netbsdRouter) (cfg : Config) : List Cmd :=
  let l4 := (scanLocalAddrs cfg.LocalAddrs).localAddr4
  let l6 := normalize6 (scanLocalAddrs cfg.LocalAddrs).localAddr6
  local4Cmds r.tunname r.local4 l4 ++ local6Cmds r.tunname r.local6 l6 ++
    ((ord.old r.routes).filter fun p => decide (p ∉ mkNewRoutes cfg.Routes)).map (routedel l4 l6) ++
    ((ord.new (mkNewRoutes cfg.Routes)).filter fun p => decide (p ∉ r.routes)).map (routeadd l4 l6)

/-- A command of an IPv6 address: the delete or the add. -/
def Site.isLocal6 : Site → Bool
  | .addr6Del => true
  | .addr6Add => true
  | _ => false

/-- The argument grammar in the words of the specification: an address
command is `ifconfig <iface> inet|inet6 <addr/mask> alias|-alias`, a route
command is `route -q -n add|delete -inet|-inet6 <dest/mask> -iface <addr>`. -/
def specGrammar : List String → Bool
  | ["ifconfig", _, fam, _, last] =>
    (fam == "inet" || fam == "inet6") && (last == "alias" || last == "-alias")
  | ["route", "-q", "-n", verb, fam, _, "-iface", _] =>
    (verb == "add" || verb == "delete") && (fam == "-inet" || fam == "-inet6")
  | _ => false

/-- The family flag of a route command: `-inet6` for an IPv6 prefix, `-inet`
for every other prefix. -/
def familyFlag (p : Prefix) : String :=
  if p.Addr.Is6 then "-inet6" else "-inet"

/-- What every valid `netip.Prefix` satisfies by construction: it has an
address, the address fits its width, and the mask length is at most the width. -/
def wellFormed (p : Prefix) : Prop :=
  match p.ip with
  | .zero => False
  | .v4 a => a < 2 ^ 32 ∧ 0 < p.bitsPlusOne ∧ p.bitsPlusOne ≤ 33
  | .v6 a => a < 2 ^ 128 ∧ 0 < p.bitsPlusOne ∧ p.bitsPlusOne ≤ 129

/-- Whether a prefix is well formed can be computed. -/
instance wellFormed.decidable (p : Prefix) : Decidable (wellFormed p) :=
  match p with
  | ⟨.zero, _⟩ => isFalse (fun h => h)
  | ⟨.v4 a, b⟩ => inferInstanceAs (Decidable (a < 2 ^ 32 ∧ 0 < b ∧ b ≤ 33))
  | ⟨.v6 a, b⟩ => inferInstanceAs (Decidable (a < 2 ^ 128 ∧ 0 < b ∧ b ≤ 129))

/-- An address with all bits beyond the first `n` set to zero. -/
def clearHostBits (a : netip.Addr) (n : Nat) : netip.Addr :=
  match a with
  | .zero => .zero
  | .v4 x => .v4 (x - x % 2 ^ (32 - n))
  | .v6 x => .v6 (x - x % 2 ^ (128 - n))

/-- The first `n` bits of an address, as a number. -/
def firstBits (a : netip.Addr) (n : Nat) : Nat :=
  match a with
  | .zero => 0
  | .v4 x => x / 2 ^ (32 - n)
  | .v6 x => x / 2 ^ (128 - n)

/-- The bits of an address beyond the first `n`, as a number. -/
def hostBits (a : netip.Addr) (n : Nat) : Nat :=
  match a with
  | .zero => 0
  | .v4 x => x % 2 ^ (32 - n)
  | .v6 x => x % 2 ^ (128 - n)

/-- The text `net.IP.String` gives for the bytes of an address: dotted decimal
for an IPv4 address and for an IPv4-mapped IPv6 address, the IPv6 text
otherwise, `<nil>` for no bytes. -/
def netIPString : netip.Addr → String
  | .zero => "<nil>"
  | .v4 a => netip.Addr.string4 a
  | .v6 a =>
    if netip.Addr.Is4In6 (.v6 a) then netip.Addr.string4 (a % 2 ^ 32) else netip.Addr.string6 a

/-! ## The method `Up` -/

/-- The places of `Up` that run a command: the initial `ifconfig ... up`, the
`sysctl` of entry `i` of `buffersizeString`, the second `ifconfig ... up`
given as one word, and the status query of the readiness loop. -/
inductive UpSite where
  | ifup : UpSite
  | sysctl (i : Nat) : UpSite
  | inetInit : UpSite
  | check : UpSite
deriving DecidableEq, Repr

/-- A command of `Up` as issued. -/
structure UpCmd where
  site : UpSite
  argv : List String
deriving DecidableEq, Repr

/-- The outside world of the commands of `Up`: given the argument vectors
already run and the one to run, the combined output and the error, if any. -/
abbrev UpExecutor := List (List String) → List String → String × Option ExecError

/-- The table `buffersizeString`. -/
def buffersizeString : List String :=
  ["net.inet.udp.recvspace=1048576", "net.inet.udp.sendspace=1048576",
   "net.inet.tcp.recvspace=1048576", "net.inet.tcp.sendspace=1048576",
   "net.inet.ip.forwarding = 1", "kern.ipc.maxsockbuf=16777216", "kern.sbmax=16777216"]

/-- The commands of the loop over `buffersizeString`; their errors are only
logged. -/
def sysctlCmds : List UpCmd :=
  buffersizeString.enum.map fun x => ⟨.sysctl x.1, ["sudo", "sysctl", "-w", x.2]⟩

/-- `strings.Contains`. -/
def stringsContains (s substr : String) : Bool :=
  decide (List.IsInfix substr.data s.data)

/-- The readiness loop `for i := 0; i < 80; i++` with `n` rounds left: a
status query that succeeds with a non-empty output without `status: down`
returns nil at once; after the last round the warning is logged and nil is
returned as well. -/
def checkLoop (ex : UpExecutor) (tunname : String) :
    Nat → List UpCmd → List UpCmd × Option ExecError
  | 0, log => (log, none)
  | n + 1, log =>
    let check : UpCmd := ⟨.check, ["ifconfig", tunname]⟩
    let res := ex (log.map UpCmd.argv) check.argv
    let log := log ++ [check]
    if res.2 = none ∧ res.1.length > 0 ∧ stringsContains res.1 "status: down" = false then
      (log, none)
    else checkLoop ex tunname n log

/-- What a call of `Up` leaves: the commands it ran and the error it returns. -/
structure UpResult where
  cmds : List UpCmd
  err : Option ExecError

/-- The method `netbsdRouter.Up`. -/
def Up (ex : UpExecutor) (tunname : String) : UpResult :=
  let ifup : UpCmd := ⟨.ifup, ["ifconfig", tunname, "inet", "100.64.0.1/32", "up"]⟩
  match (ex [] ifup.argv).2 with
  | some err => ⟨[ifup], some err⟩
  | none =>
    let log := [ifup] ++ sysctlCmds ++
      [⟨.inetInit, ["sudo ifconfig tun0 inet 100.64.0.1/32 up"]⟩]
    let res := checkLoop ex tunname 80 log
    ⟨res.1, res.2⟩

/-- A world for `Up` in which every command succeeds and the status query
reports the interface down for the first `n` queries. -/
def downFor (n : Nat) : UpExecutor := fun hist argv =>
  if argv.length = 2 ∧ (hist.filter fun a => a.length = 2).length < n then
    ("tun0: flags=8051<UP> status: down", none)
  else ("tun0: flags=8051<UP,RUNNING>", none)

/-- A world for `Up` in which the initial command succeeds and every status
query fails. -/
def queriesFail : UpExecutor := fun _ argv =>
  if argv.length = 2 then ("", some ⟨"exit status 1"⟩) else ("", none)

end osrouter

/-! # The service registration of `cmd/tailscaled/install_netbsd.go`

File contents are sequences of characters; a file that does not exist reads
as the empty content. -/

namespace tailscaled

/-- `unicode.IsSpace`. -/
def isSpace (c : Char) : Bool :=
  let n := c.toNat
  (9 ≤ n && n ≤ 13) || n == 0x20 || n == 0x85 || n == 0xA0 || n == 0x1680 ||
    (0x2000 ≤ n && n ≤ 0x200a) || n == 0x2028 || n == 0x2029 || n == 0x202f ||
    n == 0x205f || n == 0x3000

/-- `strings.TrimSpace`: the text without its leading and trailing white space. -/
def trimSpace (s : List Char) : List Char :=
  (s.dropWhile isSpace).rdropWhile isSpace

/-- `strings.Split(s, "\n")`. -/
def splitLines : List Char → List (List Char)
  | [] => [[]]
  | c :: cs =>
    if c = '\n' then [] :: splitLines cs
    else
      match splitLines cs with
      | [] => [[c]]
      | l :: ls => (c :: l) :: ls

/-- `strings.Join(lines, "\n")`. -/
def joinLines : List (List Char) → List Char
  | [] => []
  | [l] => l
  | l :: l2 :: ls => l ++ '\n' :: joinLines (l2 :: ls)

/-- `strings.HasPrefix`. -/
def hasPrefix (s pre : List Char) : Bool := pre.isPrefixOf s

/-- The text ends with a newline: `strings.HasSuffix(s, "\n")`, the same as
`len(s) > 0 && s[len(s)-1] == '\n'`. -/
def endsWithNewline (s : List Char) : Bool := s.getLast? == some '\n'

/-- The condition under which `removeFromRcConf` keeps a line. -/
def keepLine (serviceName line : List Char) : Bool :=
  trimSpace line != [] && !hasPrefix (trimSpace line) (serviceName ++ ['='])

/-- The function `removeFromRcConf` on the content read from the file: the
content it writes back. -/
def removeFromRcConf (data serviceName : List Char) : List Char :=
  let lines := splitLines data
  let newLines := lines.filter (keepLine serviceName)
  let content := joinLines newLines
  if data.length > 0 ∧ data.getLast? = some '\n' ∧ endsWithNewline content = false then
    content ++ ['\n']
  else content

/-- The function `addToRcConf` on the content read from the file: the content
it writes, or `none` when it returns without writing. -/
def addToRcConf (content line : List Char) : Option (List Char) :=
  if (splitLines content).any (fun l => trimSpace l == line) then none
  else
    let newContent :=
      if content.length > 0 ∧ endsWithNewline content = false then content ++ ['\n'] else content
    some (newContent ++ line ++ ['\n'])

/-- The content of the file after `addToRcConf`. -/
def afterAdd (content line : List Char) : List Char :=
  (addToRcConf content line).getD content

end tailscaled

namespace osrouter

open netip (Prefix PrefixFrom)

/-! ## Running commands -/

theorem Run.issueAll_nil (ex : Executor) (s : Run) : s.issueAll ex [] = s := rfl

theorem Run.issueAll_cons (ex : Executor) (s : Run) (c : Cmd) (cs : List Cmd) :
    s.issueAll ex (c :: cs) = (s.issue ex c).issueAll ex cs := rfl

theorem Run.issueAll_append (ex : Executor) (s : Run) (as bs : List Cmd) :
    s.issueAll ex (as ++ bs) = (s.issueAll ex as).issueAll ex bs := by
  simp [Run.issueAll, List.foldl_append]

theorem Run.issueAll_log (ex : Executor) (cs : List Cmd) :
    ∀ s : Run, (s.issueAll ex cs).log = s.log ++ cs := by
  induction cs with
  | nil => intro s; simp [Run.issueAll]
  | cons c cs ih =>
    intro s
    rw [Run.issueAll_cons, ih]
    simp [Run.issue]

theorem Run.issueAll_errq (ex : Executor) (cs : List Cmd) :
    ∀ s : Run, (s.issueAll ex cs).errq =
      match s.errq with
      | some e => some e
      | none => firstFailure ex (s.log.map Cmd.argv) cs := by
  induction cs with
  | nil =>
    intro s
    cases h : s.errq <;> simp [Run.issueAll, firstFailure, h]
  | cons c cs ih =>
    intro s
    rw [Run.issueAll_cons, ih]
    cases h : s.errq with
    | some e => simp [Run.issue, h]
    | none =>
      cases h2 : ex (s.log.map Cmd.argv) c.argv with
      | some e => simp [Run.issue, h, h2, firstFailure]
      | none => simp [Run.issue, h, h2, firstFailure]

theorem setLocal4_eq (ex : Executor) (tunname : String) (local4 localAddr4 : Prefix) (s : Run) :
    setLocal4 ex tunname local4 localAddr4 s =
      s.issueAll ex (local4Cmds tunname local4 localAddr4) := by
  unfold setLocal4 local4Cmds
  by_cases h : localAddr4 = local4
  · simp [h, Run.issueAll]
  · by_cases h1 : local4.IsValid = true <;> by_cases h2 : localAddr4.IsValid = true <;>
      simp [h, h1, h2, Run.issueAll]

theorem setLocal6_eq (ex : Executor) (tunname : String) (local6 localAddr6 : Prefix) (s : Run) :
    setLocal6 ex tunname local6 localAddr6 s =
      s.issueAll ex (local6Cmds tunname local6 localAddr6) := by
  unfold setLocal6 local6Cmds
  by_cases h : localAddr6 = local6
  · simp [h, Run.issueAll]
  · by_cases h1 : local6.IsValid = true <;> by_cases h2 : localAddr6.IsValid = true <;>
      simp [h, h1, h2, Run.issueAll]

theorem delRoutes_eq (ex : Executor) (l4 l6 : Prefix) (newRoutes visit : List Prefix) :
    ∀ s : Run, delRoutes ex l4 l6 newRoutes visit s =
      s.issueAll ex ((visit.filter fun p => decide (p ∉ newRoutes)).map (routedel l4 l6)) := by
  induction visit with
  | nil => intro s; simp [delRoutes, Run.issueAll]
  | cons p ps ih =>
    intro s
    have ih2 := ih
    unfold delRoutes at ih2 ⊢
    by_cases h : p ∈ newRoutes
    · simp only [List.foldl_cons, h, if_true]
      rw [ih2]
      simp [List.filter_cons, h]
    · simp only [List.foldl_cons, h, if_false]
      rw [ih2]
      simp [List.filter_cons, h, Run.issueAll]

theorem addRoutes_eq (ex : Executor) (l4 l6 : Prefix) (routes visit : List Prefix) :
    ∀ s : Run, addRoutes ex l4 l6 routes visit s =
      s.issueAll ex ((visit.filter fun p => decide (p ∉ routes)).map (routeadd l4 l6)) := by
  induction visit with
  | nil => intro s; simp [addRoutes, Run.issueAll]
  | cons p ps ih =>
    intro s
    have ih2 := ih
    unfold addRoutes at ih2 ⊢
    by_cases h : p ∈ routes
    · simp only [List.foldl_cons, h, if_true]
      rw [ih2]
      simp [List.filter_cons, h]
    · simp only [List.foldl_cons, h, if_false]
      rw [ih2]
      simp [List.filter_cons, h, Run.issueAll]

/-! ## The loop over the local addresses -/

theorem LocalScan.step_numIPv4 (s : LocalScan) (a : Prefix) :
    (s.step a).numIPv4 = s.numIPv4 + (if a.Addr.Is4 then 1 else 0) := by
  unfold LocalScan.step
  by_cases h4 : a.Addr.Is4 = true <;> by_cases h6 : a.Addr.Is6 = true <;> simp [h4, h6]

theorem LocalScan.step_numIPv6 (s : LocalScan) (a : Prefix) :
    (s.step a).numIPv6 = s.numIPv6 + (if a.Addr.Is6 then 1 else 0) := by
  unfold LocalScan.step
  by_cases h4 : a.Addr.Is4 = true <;> by_cases h6 : a.Addr.Is6 = true <;> simp [h4, h6]

theorem LocalScan.step_localAddr4 (s : LocalScan) (a : Prefix) :
    (s.step a).localAddr4 = if a.Addr.Is4 then a else s.localAddr4 := by
  unfold LocalScan.step
  by_cases h4 : a.Addr.Is4 = true <;> by_cases h6 : a.Addr.Is6 = true <;> simp [h4, h6]

theorem LocalScan.step_localAddr6 (s : LocalScan) (a : Prefix) :
    (s.step a).localAddr6 = if a.Addr.Is6 then a else s.localAddr6 := by
  unfold LocalScan.step
  by_cases h4 : a.Addr.Is4 = true <;> by_cases h6 : a.Addr.Is6 = true <;> simp [h4, h6]

theorem foldl_step_numIPv4 (l : List Prefix) :
    ∀ s : LocalScan, (l.foldl LocalScan.step s).numIPv4 =
      s.numIPv4 + l.countP fun a => a.Addr.Is4 := by
  induction l with
  | nil => intro s; simp
  | cons a l ih =>
    intro s
    rw [List.foldl_cons, ih, LocalScan.step_numIPv4, List.countP_cons]
    omega

theorem foldl_step_numIPv6 (l : List Prefix) :
    ∀ s : LocalScan, (l.foldl LocalScan.step s).numIPv6 =
      s.numIPv6 + l.countP fun a => a.Addr.Is6 := by
  induction l with
  | nil => intro s; simp
  | cons a l ih =>
    intro s
    rw [List.foldl_cons, ih, LocalScan.step_numIPv6, List.countP_cons]
    omega

theorem foldl_step_localAddr4 (l : List Prefix) :
    ∀ s : LocalScan, (l.countP fun a => a.Addr.Is4) ≤ 1 →
      (l.foldl LocalScan.step s).localAddr4 =
        (l.find? fun a => a.Addr.Is4).getD s.localAddr4 := by
  induction l with
  | nil => intro s _; simp
  | cons a l ih =>
    intro s h
    rw [List.countP_cons] at h
    rw [List.foldl_cons, ih _ (by omega), LocalScan.step_localAddr4]
    by_cases h4 : a.Addr.Is4 = true
    · have h0 : (l.countP fun a => a.Addr.Is4) = 0 := by
        rw [if_pos h4] at h; omega
      have hnone : (l.find? fun a => a.Addr.Is4) = none := by
        rw [List.find?_eq_none]
        intro x hx
        have := List.countP_eq_zero.mp h0 x hx
        simpa using this
      simp [h4, hnone]
    · simp [h4]

theorem foldl_step_localAddr6 (l : List Prefix) :
    ∀ s : LocalScan, (l.countP fun a => a.Addr.Is6) ≤ 1 →
      (l.foldl LocalScan.step s).localAddr6 =
        (l.find? fun a => a.Addr.Is6).getD s.localAddr6 := by
  induction l with
  | nil => intro s _; simp
  | cons a l ih =>
    intro s h
    rw [List.countP_cons] at h
    rw [List.foldl_cons, ih _ (by omega), LocalScan.step_localAddr6]
    by_cases h6 : a.Addr.Is6 = true
    · have h0 : (l.countP fun a => a.Addr.Is6) = 0 := by
        rw [if_pos h6] at h; omega
      have hnone : (l.find? fun a => a.Addr.Is6) = none := by
        rw [List.find?_eq_none]
        intro x hx
        have := List.countP_eq_zero.mp h0 x hx
        simpa using this
      simp [h6, hnone]
    · simp [h6]

theorem scan_numIPv4 (cfg : Config) : (scanLocalAddrs cfg.LocalAddrs).numIPv4 = countIPv4 cfg.LocalAddrs := by
  simp [scanLocalAddrs, foldl_step_numIPv4, countIPv4]

theorem scan_numIPv6 (cfg : Config) : (scanLocalAddrs cfg.LocalAddrs).numIPv6 = countIPv6 cfg.LocalAddrs := by
  simp [scanLocalAddrs, foldl_step_numIPv6, countIPv6]

theorem scan_localAddr4 (cfg : Config) (h : countIPv4 cfg.LocalAddrs ≤ 1) :
    (scanLocalAddrs cfg.LocalAddrs).localAddr4 = desired4 cfg.LocalAddrs := by
  simp only [scanLocalAddrs, desired4]
  exact foldl_step_localAddr4 _ _ h

theorem scan_localAddr6 (cfg : Config) (h : countIPv6 cfg.LocalAddrs ≤ 1) :
    (scanLocalAddrs cfg.LocalAddrs).localAddr6 = desired6 cfg.LocalAddrs := by
  simp only [scanLocalAddrs, desired6]
  exact foldl_step_localAddr6 _ _ h

/-! ## The new route set -/

theorem mem_foldl_setAdd (l : List Prefix) :
    ∀ (acc : List Prefix) (p : Prefix), p ∈ l.foldl setAdd acc ↔ p ∈ acc ∨ p ∈ l := by
  induction l with
  | nil => intro acc p; simp
  | cons a l ih =>
    intro acc p
    rw [List.foldl_cons, ih]
    unfold setAdd
    by_cases h : a ∈ acc
    · simp only [h, if_true, List.mem_cons]
      constructor
      · rintro (h1 | h1)
        · exact Or.inl h1
        · exact Or.inr (Or.inr h1)
      · rintro (h1 | h1 | h1)
        · exact Or.inl h1
        · exact Or.inl (h1 ▸ h)
        · exact Or.inr h1
    · simp only [h, if_false, List.mem_append, List.mem_singleton, List.mem_cons]
      tauto

theorem nodup_foldl_setAdd (l : List Prefix) :
    ∀ acc : List Prefix, acc.Nodup → (l.foldl setAdd acc).Nodup := by
  induction l with
  | nil => intro acc h; simpa using h
  | cons a l ih =>
    intro acc h
    rw [List.foldl_cons]
    apply ih
    unfold setAdd
    by_cases ha : a ∈ acc
    · simpa [ha] using h
    · simp only [ha, if_false]
      rw [List.nodup_append]
      refine ⟨h, List.nodup_singleton a, ?_⟩
      intro x hx hx2
      rw [List.mem_singleton] at hx2
      exact ha (hx2 ▸ hx)

theorem mem_mkNewRoutes (routes : List Prefix) (p : Prefix) :
    p ∈ mkNewRoutes routes ↔ p ∈ routes := by
  simp [mkNewRoutes, mem_foldl_setAdd]

theorem nodup_mkNewRoutes (routes : List Prefix) : (mkNewRoutes routes).Nodup :=
  nodup_foldl_setAdd routes [] List.nodup_nil

/-! ## The three ways through `Set` -/

theorem Set_of_no_addrs (ex : Executor) (ord : MapOrder) (r : netbsdRouter) (cfg : Option Config)
    (h : desiredAddrs cfg = []) : Set ex ord r cfg = ⟨r, [], none⟩ := by
  cases cfg with
  | none => simp [Set, shutdownConfig]
  | some c =>
    simp only [desiredAddrs] at h
    simp [Set, h]

theorem Set_of_multiple (ex : Executor) (ord : MapOrder) (r : netbsdRouter) (cfg : Config)
    (h : 1 < countIPv4 cfg.LocalAddrs ∨ 1 < countIPv6 cfg.LocalAddrs) :
    Set ex ord r (some cfg) = ⟨r, [], some Error.multipleLocalAddrs⟩ := by
  have hne : cfg.LocalAddrs.length ≠ 0 := by
    intro h0
    have : cfg.LocalAddrs = [] := List.length_eq_zero.mp h0
    simp [countIPv4, countIPv6, this] at h
  have h2 : (scanLocalAddrs cfg.LocalAddrs).numIPv4 > 1 ∨ (scanLocalAddrs cfg.LocalAddrs).numIPv6 > 1 := by
    rw [scan_numIPv4, scan_numIPv6]; exact h
  simp only [Set, hne, if_false, h2, if_true]

theorem Set_of_accepted (ex : Executor) (ord : MapOrder) (r : netbsdRouter) (cfg : Config)
    (hne : cfg.LocalAddrs ≠ []) (h4 : countIPv4 cfg.LocalAddrs ≤ 1) (h6 : countIPv6 cfg.LocalAddrs ≤ 1) :
    Set ex ord r (some cfg) =
      ⟨{ r with
          local4 := (scanLocalAddrs cfg.LocalAddrs).localAddr4
          local6 := normalize6 (scanLocalAddrs cfg.LocalAddrs).localAddr6
          routes := mkNewRoutes cfg.Routes },
        SetPlan ord r cfg,
        (firstFailure ex [] (SetPlan ord r cfg)).map Error.command⟩ := by
  have hlen : cfg.LocalAddrs.length ≠ 0 := fun h0 => hne (List.length_eq_zero.mp h0)
  have h2 : ¬ ((scanLocalAddrs cfg.LocalAddrs).numIPv4 > 1 ∨
      (scanLocalAddrs cfg.LocalAddrs).numIPv6 > 1) := by
    rw [scan_numIPv4, scan_numIPv6]; omega
  simp only [Set, hlen, if_false, h2]
  rw [setLocal4_eq, setLocal6_eq, delRoutes_eq, addRoutes_eq, ← Run.issueAll_append,
    ← Run.issueAll_append, ← Run.issueAll_append, Run.issueAll_log, Run.issueAll_errq]
  simp [SetPlan]

theorem cfg_cases (cfg : Option Config) :
    desiredAddrs cfg = [] ∨
    (∃ c, cfg = some c ∧ (1 < countIPv4 c.LocalAddrs ∨ 1 < countIPv6 c.LocalAddrs)) ∨
    (∃ c, cfg = some c ∧ c.LocalAddrs ≠ [] ∧ countIPv4 c.LocalAddrs ≤ 1 ∧
      countIPv6 c.LocalAddrs ≤ 1) := by
  cases cfg with
  | none => exact Or.inl rfl
  | some c =>
    by_cases h : c.LocalAddrs = []
    · exact Or.inl h
    · by_cases hm : 1 < countIPv4 c.LocalAddrs ∨ 1 < countIPv6 c.LocalAddrs
      · exact Or.inr (Or.inl ⟨c, rfl, hm⟩)
      · exact Or.inr (Or.inr ⟨c, rfl, h, by omega, by omega⟩)

theorem local4Cmds_self (tunname : String) (p : Prefix) : local4Cmds tunname p p = [] := by
  simp [local4Cmds]

theorem local6Cmds_self (tunname : String) (p : Prefix) : local6Cmds tunname p p = [] := by
  simp [local6Cmds]

theorem SetPlan_applied (ord : MapOrder) (r : netbsdRouter) (cfg : Config) :
    SetPlan ord
      { r with
        local4 := (scanLocalAddrs cfg.LocalAddrs).localAddr4
        local6 := normalize6 (scanLocalAddrs cfg.LocalAddrs).localAddr6
        routes := mkNewRoutes cfg.Routes } cfg = [] := by
  have h1 : ((ord.old (mkNewRoutes cfg.Routes)).filter
      fun p => decide (p ∉ mkNewRoutes cfg.Routes)) = [] := by
    rw [List.filter_eq_nil_iff]
    intro p hp
    have := (ord.old_perm (mkNewRoutes cfg.Routes)).mem_iff.mp hp
    simp [this]
  have h2 : ((ord.new (mkNewRoutes cfg.Routes)).filter
      fun p => decide (p ∉ mkNewRoutes cfg.Routes)) = [] := by
    rw [List.filter_eq_nil_iff]
    intro p hp
    have := (ord.new_perm (mkNewRoutes cfg.Routes)).mem_iff.mp hp
    simp [this]
  simp only [SetPlan, local4Cmds_self, local6Cmds_self, h1, h2, List.map_nil, List.append_nil]

/-! ## The first failure -/

theorem firstFailure_spec (ex : Executor) (cs : List Cmd) :
    ∀ hist : List (List String),
      (firstFailure ex hist cs = none ∧
        ∀ i c, cs[i]? = some c → ex (hist ++ (cs.take i).map Cmd.argv) c.argv = none) ∨
      (∃ i c e, cs[i]? = some c ∧ ex (hist ++ (cs.take i).map Cmd.argv) c.argv = some e ∧
        firstFailure ex hist cs = some e ∧
        ∀ j d, j < i → cs[j]? = some d →
          ex (hist ++ (cs.take j).map Cmd.argv) d.argv = none) := by
  induction cs with
  | nil =>
    intro hist
    left
    exact ⟨rfl, fun i c h => by simp at h⟩
  | cons c cs ih =>
    intro hist
    cases hc : ex hist c.argv with
    | some e =>
      right
      refine ⟨0, c, e, by simp, by simpa using hc, by simp [firstFailure, hc], ?_⟩
      intro j d hj
      omega
    | none =>
      rcases ih (hist ++ [c.argv]) with ⟨hnone, hall⟩ | ⟨i, d, e, hd, hex, hff, hbefore⟩
      · left
        refine ⟨by simp [firstFailure, hc, hnone], ?_⟩
        intro i d hd
        cases i with
        | zero =>
          simp at hd
          subst hd
          simpa using hc
        | succ i =>
          have := hall i d (by simpa using hd)
          simpa [List.append_assoc] using this
      · right
        refine ⟨i + 1, d, e, by simpa using hd, by simpa [List.append_assoc] using hex,
          by simp [firstFailure, hc, hff], ?_⟩
        intro j d2 hj hd2
        cases j with
        | zero =>
          simp at hd2
          subst hd2
          simpa using hc
        | succ j =>
          have := hbefore j d2 (by omega) (by simpa using hd2)
          simpa [List.append_assoc] using this

theorem firstFailure_outcome (ex : Executor) (cs : List Cmd) :
    (firstFailure ex [] cs = none ∧ ∀ i, i < cs.length → outcome ex cs i = none) ∨
    (∃ i e, outcome ex cs i = some e ∧ firstFailure ex [] cs = some e ∧
      ∀ j, j < i → outcome ex cs j = none) := by
  rcases firstFailure_spec ex cs [] with ⟨hnone, hall⟩ | ⟨i, c, e, hc, hex, hff, hbefore⟩
  · left
    refine ⟨hnone, ?_⟩
    intro i hi
    unfold outcome
    cases hci : cs[i]? with
    | none => rfl
    | some c => simpa using hall i c hci
  · right
    refine ⟨i, e, ?_, hff, ?_⟩
    · unfold outcome
      rw [hc]
      simpa using hex
    · intro j hj
      unfold outcome
      cases hcj : cs[j]? with
      | none => rfl
      | some d => simpa using hbefore j d hj hcj

theorem outcome_none_of_length_le (ex : Executor) (cs : List Cmd) (i : Nat)
    (h : cs.length ≤ i) : outcome ex cs i = none := by
  unfold outcome
  rw [List.getElem?_eq_none h]

/-! ## The shape of the command sequence -/

theorem local4Cmds_isLocal4 (tunname : String) (P D : Prefix) :
    ∀ c ∈ local4Cmds tunname P D, c.site.isLocal4 = true := by
  intro c hc
  unfold local4Cmds at hc
  by_cases h : D = P
  · simp [h] at hc
  · by_cases h1 : P.IsValid = true <;> by_cases h2 : D.IsValid = true <;>
      simp [h, h1, h2] at hc <;> rcases hc with rfl | rfl | rfl | rfl <;> rfl

theorem local6Cmds_site (tunname : String) (P D : Prefix) :
    ∀ c ∈ local6Cmds tunname P D, c.site = Site.addr6Del ∨ c.site = Site.addr6Add := by
  intro c hc
  unfold local6Cmds at hc
  by_cases h : D = P
  · simp [h] at hc
  · by_cases h1 : P.IsValid = true <;> by_cases h2 : D.IsValid = true <;>
      simp [h, h1, h2] at hc <;> rcases hc with rfl | rfl <;> simp

theorem getElem?_lt_of_append {α : Type} (A B : List α) (P Q : α → Prop)
    (hA : ∀ x ∈ A, ¬ Q x) (hB : ∀ x ∈ B, ¬ P x) (i j : Nat) (c d : α)
    (hi : (A ++ B)[i]? = some c) (hj : (A ++ B)[j]? = some d) (hc : P c) (hd : Q d) :
    i < j := by
  by_contra hle
  by_cases hiA : i < A.length
  · have hjA : j < A.length := by omega
    rw [List.getElem?_append_left hjA] at hj
    exact hA d (List.getElem?_mem hj) hd
  · rw [List.getElem?_append_right (by omega)] at hi
    exact hB c (List.getElem?_mem hi) hc

theorem SetPlan_split (ord : MapOrder) (r : netbsdRouter) (cfg : Config) :
    ∃ A B : List Cmd, SetPlan ord r cfg = A ++ B ∧
      (∀ c ∈ A, c.site.isAddress = true ∧ c.site.isRouteSet = false) ∧
      (∀ c ∈ B, c.site.isRouteSet = true ∧ c.site.isAddress = false) := by
  refine ⟨local4Cmds r.tunname r.local4 (scanLocalAddrs cfg.LocalAddrs).localAddr4 ++
      local6Cmds r.tunname r.local6 (normalize6 (scanLocalAddrs cfg.LocalAddrs).localAddr6),
    ((ord.old r.routes).filter fun p => decide (p ∉ mkNewRoutes cfg.Routes)).map
        (routedel (scanLocalAddrs cfg.LocalAddrs).localAddr4
          (normalize6 (scanLocalAddrs cfg.LocalAddrs).localAddr6)) ++
      ((ord.new (mkNewRoutes cfg.Routes)).filter fun p => decide (p ∉ r.routes)).map
        (routeadd (scanLocalAddrs cfg.LocalAddrs).localAddr4
          (normalize6 (scanLocalAddrs cfg.LocalAddrs).localAddr6)), ?_, ?_, ?_⟩
  · simp [SetPlan, List.append_assoc]
  · intro c hc
    rcases List.mem_append.mp hc with h | h
    · have := local4Cmds_isLocal4 _ _ _ c h
      cases hs : c.site <;> simp [hs, Site.isLocal4, Site.isAddress, Site.isRouteSet] at this ⊢
    · rcases local6Cmds_site _ _ _ c h with hs | hs <;>
        simp [hs, Site.isAddress, Site.isRouteSet]
  · intro c hc
    rcases List.mem_append.mp hc with h | h
    · obtain ⟨p, _, rfl⟩ := List.mem_map.mp h
      simp [routedel, Site.isAddress, Site.isRouteSet]
    · obtain ⟨p, _, rfl⟩ := List.mem_map.mp h
      simp [routeadd, Site.isAddress, Site.isRouteSet]

theorem filter_isLocal4_SetPlan (ord : MapOrder) (r : netbsdRouter) (cfg : Config) :
    (SetPlan ord r cfg).filter (fun c => c.site.isLocal4) =
      local4Cmds r.tunname r.local4 (scanLocalAddrs cfg.LocalAddrs).localAddr4 := by
  have h4 := List.filter_eq_self.mpr
    (local4Cmds_isLocal4 r.tunname r.local4 (scanLocalAddrs cfg.LocalAddrs).localAddr4)
  have h6 : (local6Cmds r.tunname r.local6
      (normalize6 (scanLocalAddrs cfg.LocalAddrs).localAddr6)).filter
      (fun c => c.site.isLocal4) = [] := by
    rw [List.filter_eq_nil_iff]
    intro c hc
    rcases local6Cmds_site _ _ _ c hc with hs | hs <;> simp [hs, Site.isLocal4]
  simp only [SetPlan, List.filter_append, h4, h6, List.append_nil]
  have hd : ∀ l : List Prefix, (l.map (routedel (scanLocalAddrs cfg.LocalAddrs).localAddr4
      (normalize6 (scanLocalAddrs cfg.LocalAddrs).localAddr6))).filter
      (fun c => c.site.isLocal4) = [] := by
    intro l
    rw [List.filter_eq_nil_iff]
    intro c hc
    obtain ⟨p, _, rfl⟩ := List.mem_map.mp hc
    simp [routedel, Site.isLocal4]
  have ha : ∀ l : List Prefix, (l.map (routeadd (scanLocalAddrs cfg.LocalAddrs).localAddr4
      (normalize6 (scanLocalAddrs cfg.LocalAddrs).localAddr6))).filter
      (fun c => c.site.isLocal4) = [] := by
    intro l
    rw [List.filter_eq_nil_iff]
    intro c hc
    obtain ⟨p, _, rfl⟩ := List.mem_map.mp hc
    simp [routeadd, Site.isLocal4]
  rw [hd, ha]
  simp

/-! ## The IPv6 address of an accepted configuration -/

theorem find?_eq_of_countP_le_one (q : Prefix → Bool) (l : List Prefix) (p : Prefix)
    (hc : l.countP q ≤ 1) (hp : p ∈ l) (hq : q p = true) : l.find? q = some p := by
  induction l with
  | nil => simp at hp
  | cons a l ih =>
    rw [List.countP_cons] at hc
    by_cases ha : q a = true
    · rw [if_pos ha] at hc
      have h0 : l.countP q = 0 := by omega
      rcases List.mem_cons.mp hp with rfl | hmem
      · simp [ha]
      · have := List.countP_eq_zero.mp h0 p hmem
        exact absurd hq this
    · rcases List.mem_cons.mp hp with rfl | hmem
      · exact absurd hq ha
      · rw [List.find?_cons_of_neg _ ha]
        exact ih (by omega) hmem

theorem normalize6_of_valid (p : Prefix) (h6 : p.Addr.Is6 = true) (hv : p.IsValid = true) :
    normalize6 p = ⟨p.Addr, 49⟩ := by
  unfold normalize6 netip.PrefixFrom
  rw [if_pos hv]
  cases hp : p.Addr with
  | zero => simp [hp, netip.Addr.Is6] at h6
  | v4 a => simp [hp, netip.Addr.Is6] at h6
  | v6 a => simp [netip.Addr.isZero, netip.Addr.BitLen]

theorem String_of_slash48 (a : netip.Addr) :
    (⟨a, 49⟩ : Prefix).String = a.String ++ "/48" := by
  have h : toString ((49 : Nat) - 1 : Int) = "48" := by decide
  simp only [netip.Prefix.String, netip.Prefix.IsValid, netip.Prefix.Bits]
  simp [String.append_assoc]
  rfl

theorem filter_addr6Add_SetPlan (ord : MapOrder) (r : netbsdRouter) (cfg : Config) :
    (SetPlan ord r cfg).filter (fun c => decide (c.site = Site.addr6Add)) =
      (local6Cmds r.tunname r.local6 (normalize6 (scanLocalAddrs cfg.LocalAddrs).localAddr6)).filter
        (fun c => decide (c.site = Site.addr6Add)) := by
  have h4 : (local4Cmds r.tunname r.local4 (scanLocalAddrs cfg.LocalAddrs).localAddr4).filter
      (fun c => decide (c.site = Site.addr6Add)) = [] := by
    rw [List.filter_eq_nil_iff]
    intro c hc
    have := local4Cmds_isLocal4 _ _ _ c hc
    intro h
    simp only [decide_eq_true_eq] at h
    simp [h, Site.isLocal4] at this
  have hd : ∀ l : List Prefix, (l.map (routedel (scanLocalAddrs cfg.LocalAddrs).localAddr4
      (normalize6 (scanLocalAddrs cfg.LocalAddrs).localAddr6))).filter
      (fun c => decide (c.site = Site.addr6Add)) = [] := by
    intro l
    rw [List.filter_eq_nil_iff]
    intro c hc
    obtain ⟨p, _, rfl⟩ := List.mem_map.mp hc
    simp [routedel]
  have ha : ∀ l : List Prefix, (l.map (routeadd (scanLocalAddrs cfg.LocalAddrs).localAddr4
      (normalize6 (scanLocalAddrs cfg.LocalAddrs).localAddr6))).filter
      (fun c => decide (c.site = Site.addr6Add)) = [] := by
    intro l
    rw [List.filter_eq_nil_iff]
    intro c hc
    obtain ⟨p, _, rfl⟩ := List.mem_map.mp hc
    simp [routeadd]
  simp only [SetPlan, List.filter_append, h4, hd, ha, List.append_nil, List.nil_append]

/-! ## Counting the route commands -/

theorem countP_routeDel_map_routedel (l4 l6 p : Prefix) (l : List Prefix) :
    (l.map (routedel l4 l6)).countP (fun c => decide (c.site = Site.routeDel p)) = l.count p := by
  induction l with
  | nil => rfl
  | cons a l ih =>
    rw [List.map_cons, List.countP_cons, ih, List.count_cons]
    by_cases h : a = p
    · simp [h, routedel]
    · simp [h, routedel]

theorem countP_routeAdd_map_routeadd (l4 l6 p : Prefix) (l : List Prefix) :
    (l.map (routeadd l4 l6)).countP (fun c => decide (c.site = Site.routeAdd p)) = l.count p := by
  induction l with
  | nil => rfl
  | cons a l ih =>
    rw [List.map_cons, List.countP_cons, ih, List.count_cons]
    by_cases h : a = p
    · simp [h, routeadd]
    · simp [h, routeadd]

theorem countP_eq_zero_of_not_routeSet (q : Cmd → Bool) (l : List Cmd)
    (hq : ∀ c, q c = true → c.site.isRouteSet = true)
    (hl : ∀ c ∈ l, c.site.isRouteSet = false) : l.countP q = 0 := by
  rw [List.countP_eq_zero]
  intro c hc hqc
  have h1 := hq c hqc
  rw [hl c hc] at h1
  exact absurd h1 (by simp)

theorem address_cmds_not_routeSet (tunname : String) (P4 D4 P6 D6 : Prefix) :
    ∀ c ∈ local4Cmds tunname P4 D4 ++ local6Cmds tunname P6 D6, c.site.isRouteSet = false := by
  intro c hc
  rcases List.mem_append.mp hc with h | h
  · have := local4Cmds_isLocal4 _ _ _ c h
    cases hs : c.site <;> simp [hs, Site.isLocal4, Site.isRouteSet] at this ⊢
  · rcases local6Cmds_site _ _ _ c h with hs | hs <;> simp [hs, Site.isRouteSet]

theorem count_filter_of_nodup (l : List Prefix) (q : Prefix → Bool) (p : Prefix)
    (h : l.Nodup) : (l.filter q).count p = if p ∈ l ∧ q p = true then 1 else 0 := by
  rw [List.count_eq_of_nodup (h.filter q)]
  simp [List.mem_filter]

theorem card_sdiff_eq_length_filter (l m : List Prefix) (h : l.Nodup) :
    (l.toFinset \ m.toFinset).card = (l.filter fun p => decide (p ∉ m)).length := by
  rw [← List.toFinset_card_of_nodup (h.filter _)]
  congr 1
  ext x
  simp

theorem card_symmDiff_eq (s t : Finset Prefix) :
    (symmDiff s t).card = (s \ t).card + (t \ s).card := by
  rw [symmDiff_def, Finset.sup_eq_union, Finset.card_union_of_disjoint disjoint_sdiff_sdiff]

theorem toFinset_mkNewRoutes (routes : List Prefix) :
    (mkNewRoutes routes).toFinset = routes.toFinset := by
  ext p
  simp [mem_mkNewRoutes]

theorem SetPlan_eq_append (ord : MapOrder) (r : netbsdRouter) (cfg : Config) :
    SetPlan ord r cfg =
      (local4Cmds r.tunname r.local4 (scanLocalAddrs cfg.LocalAddrs).localAddr4 ++
        local6Cmds r.tunname r.local6 (normalize6 (scanLocalAddrs cfg.LocalAddrs).localAddr6)) ++
      (((ord.old r.routes).filter fun p => decide (p ∉ mkNewRoutes cfg.Routes)).map
          (routedel (scanLocalAddrs cfg.LocalAddrs).localAddr4
            (normalize6 (scanLocalAddrs cfg.LocalAddrs).localAddr6)) ++
        ((ord.new (mkNewRoutes cfg.Routes)).filter fun p => decide (p ∉ r.routes)).map
          (routeadd (scanLocalAddrs cfg.LocalAddrs).localAddr4
            (normalize6 (scanLocalAddrs cfg.LocalAddrs).localAddr6))) := by
  simp [SetPlan, List.append_assoc]

theorem SetPlan_countP_routeDel (ord : MapOrder) (r : netbsdRouter) (cfg : Config) (p : Prefix)
    (hnd : r.routes.Nodup) :
    (SetPlan ord r cfg).countP (fun c => decide (c.site = Site.routeDel p)) =
      if p ∈ r.routes ∧ p ∉ cfg.Routes then 1 else 0 := by
  have hq : ∀ c : Cmd, decide (c.site = Site.routeDel p) = true → c.site.isRouteSet = true := by
    intro c hc
    simp only [decide_eq_true_eq] at hc
    simp [hc, Site.isRouteSet]
  have hadd : ∀ l : List Prefix, (l.map (routeadd (scanLocalAddrs cfg.LocalAddrs).localAddr4
      (normalize6 (scanLocalAddrs cfg.LocalAddrs).localAddr6))).countP
      (fun c => decide (c.site = Site.routeDel p)) = 0 := by
    intro l
    rw [List.countP_eq_zero]
    intro c hc
    obtain ⟨q, _, rfl⟩ := List.mem_map.mp hc
    simp [routeadd]
  rw [SetPlan_eq_append, List.countP_append,
    countP_eq_zero_of_not_routeSet _ _ hq (address_cmds_not_routeSet _ _ _ _ _),
    List.countP_append, hadd,
    countP_routeDel_map_routedel,
    count_filter_of_nodup _ _ _ ((ord.old_perm r.routes).nodup_iff.mpr hnd)]
  simp [(ord.old_perm r.routes).mem_iff, mem_mkNewRoutes]

theorem SetPlan_countP_routeAdd (ord : MapOrder) (r : netbsdRouter) (cfg : Config) (p : Prefix) :
    (SetPlan ord r cfg).countP (fun c => decide (c.site = Site.routeAdd p)) =
      if p ∈ cfg.Routes ∧ p ∉ r.routes then 1 else 0 := by
  have hq : ∀ c : Cmd, decide (c.site = Site.routeAdd p) = true → c.site.isRouteSet = true := by
    intro c hc
    simp only [decide_eq_true_eq] at hc
    simp [hc, Site.isRouteSet]
  have hdel : ∀ l : List Prefix, (l.map (routedel (scanLocalAddrs cfg.LocalAddrs).localAddr4
      (normalize6 (scanLocalAddrs cfg.LocalAddrs).localAddr6))).countP
      (fun c => decide (c.site = Site.routeAdd p)) = 0 := by
    intro l
    rw [List.countP_eq_zero]
    intro c hc
    obtain ⟨q, _, rfl⟩ := List.mem_map.mp hc
    simp [routedel]
  rw [SetPlan_eq_append, List.countP_append,
    countP_eq_zero_of_not_routeSet _ _ hq (address_cmds_not_routeSet _ _ _ _ _),
    List.countP_append, hdel,
    countP_routeAdd_map_routeadd,
    count_filter_of_nodup _ _ _
      ((ord.new_perm (mkNewRoutes cfg.Routes)).nodup_iff.mpr (nodup_mkNewRoutes cfg.Routes))]
  simp [(ord.new_perm (mkNewRoutes cfg.Routes)).mem_iff, mem_mkNewRoutes]

theorem SetPlan_countP_isRouteSet (ord : MapOrder) (r : netbsdRouter) (cfg : Config)
    (hnd : r.routes.Nodup) :
    (SetPlan ord r cfg).countP (fun c => c.site.isRouteSet) =
      (symmDiff r.routes.toFinset cfg.Routes.toFinset).card := by
  have hall : ∀ (f : Prefix → Cmd) (l : List Prefix), (∀ q, (f q).site.isRouteSet = true) →
      (l.map f).countP (fun c => c.site.isRouteSet) = l.length := by
    intro f l hf
    have h := (List.countP_eq_length (p := fun c : Cmd => c.site.isRouteSet)
      (l := l.map f)).mpr (by
        intro c hc
        obtain ⟨q, _, rfl⟩ := List.mem_map.mp hc
        exact hf q)
    rw [h, List.length_map]
  rw [SetPlan_eq_append, List.countP_append,
    countP_eq_zero_of_not_routeSet _ _ (fun _ h => h) (address_cmds_not_routeSet _ _ _ _ _),
    List.countP_append,
    hall _ _ (fun q => by simp [routedel, Site.isRouteSet]),
    hall _ _ (fun q => by simp [routeadd, Site.isRouteSet]),
    card_symmDiff_eq, ← toFinset_mkNewRoutes cfg.Routes,
    card_sdiff_eq_length_filter _ _ hnd,
    card_sdiff_eq_length_filter _ _ (nodup_mkNewRoutes cfg.Routes),
    ((ord.old_perm r.routes).filter _).length_eq,
    ((ord.new_perm (mkNewRoutes cfg.Routes)).filter _).length_eq]
  omega

theorem SetPlan_route_argv (ord : MapOrder) (r : netbsdRouter) (cfg : Config) (c : Cmd)
    (hc : c ∈ SetPlan ord r cfg) (p : Prefix) :
    (c.site = Site.routeDel p →
      c = routedel (scanLocalAddrs cfg.LocalAddrs).localAddr4
        (normalize6 (scanLocalAddrs cfg.LocalAddrs).localAddr6) p) ∧
    (c.site = Site.routeAdd p →
      c = routeadd (scanLocalAddrs cfg.LocalAddrs).localAddr4
        (normalize6 (scanLocalAddrs cfg.LocalAddrs).localAddr6) p) := by
  rw [SetPlan_eq_append] at hc
  rcases List.mem_append.mp hc with h | h
  · have := address_cmds_not_routeSet _ _ _ _ _ c h
    constructor <;> intro hs <;> simp [hs, Site.isRouteSet] at this
  · rcases List.mem_append.mp h with h | h
    · obtain ⟨q, _, rfl⟩ := List.mem_map.mp h
      constructor
      · intro hs
        simp only [routedel, Site.routeDel.injEq] at hs
        rw [hs]
      · intro hs
        simp [routedel] at hs
    · obtain ⟨q, _, rfl⟩ := List.mem_map.mp h
      constructor
      · intro hs
        simp [routeadd] at hs
      · intro hs
        simp only [routeadd, Site.routeAdd.injEq] at hs
        rw [hs]

theorem SetSeq_append (r : netbsdRouter) (a b : List (Executor × MapOrder × Option Config)) :
    SetSeq r (a ++ b) = SetSeq (SetSeq r a) b := by
  induction a generalizing r with
  | nil => rfl
  | cons s a ih =>
    obtain ⟨ex, ord, cfg⟩ := s
    simp only [List.cons_append, SetSeq]
    exact ih _

/-! ## What an accepted configuration stores and binds -/

theorem desired4_of_mem (addrs : List Prefix) (p : Prefix) (hc : countIPv4 addrs ≤ 1)
    (hp : p ∈ addrs) (h4 : p.Addr.Is4 = true) : desired4 addrs = p := by
  unfold desired4
  rw [find?_eq_of_countP_le_one (fun a => a.Addr.Is4) addrs p hc hp h4]
  rfl

theorem desired6_of_mem (addrs : List Prefix) (p : Prefix) (hc : countIPv6 addrs ≤ 1)
    (hp : p ∈ addrs) (h6 : p.Addr.Is6 = true) : desired6 addrs = p := by
  unfold desired6
  rw [find?_eq_of_countP_le_one (fun a => a.Addr.Is6) addrs p hc hp h6]
  rfl

theorem desired4_of_count_zero (addrs : List Prefix) (hc : countIPv4 addrs = 0) :
    desired4 addrs = ⟨.zero, 0⟩ := by
  unfold desired4
  have : (addrs.find? fun a => a.Addr.Is4) = none := by
    rw [List.find?_eq_none]
    intro x hx
    have := List.countP_eq_zero.mp hc x hx
    simpa using this
  rw [this]
  rfl

theorem desired6_of_count_zero (addrs : List Prefix) (hc : countIPv6 addrs = 0) :
    desired6 addrs = ⟨.zero, 0⟩ := by
  unfold desired6
  have : (addrs.find? fun a => a.Addr.Is6) = none := by
    rw [List.find?_eq_none]
    intro x hx
    have := List.countP_eq_zero.mp hc x hx
    simpa using this
  rw [this]
  rfl

theorem normalize6_zero : normalize6 ⟨.zero, 0⟩ = ⟨.zero, 0⟩ := by
  simp [normalize6, netip.Prefix.IsValid]

theorem normalize6_Addr (p : Prefix) : (normalize6 p).Addr = p.Addr := by
  unfold normalize6
  by_cases h : p.IsValid = true
  · simp [h, netip.PrefixFrom, netip.Prefix.Addr]
  · simp [h]

theorem filter_isLocal6_SetPlan (ord : MapOrder) (r : netbsdRouter) (cfg : Config) :
    (SetPlan ord r cfg).filter (fun c => c.site.isLocal6) =
      local6Cmds r.tunname r.local6 (normalize6 (scanLocalAddrs cfg.LocalAddrs).localAddr6) := by
  have h4 : (local4Cmds r.tunname r.local4 (scanLocalAddrs cfg.LocalAddrs).localAddr4).filter
      (fun c => c.site.isLocal6) = [] := by
    rw [List.filter_eq_nil_iff]
    intro c hc
    have := local4Cmds_isLocal4 _ _ _ c hc
    cases hs : c.site <;> simp [hs, Site.isLocal4, Site.isLocal6] at this ⊢
  have h6 := List.filter_eq_self.mpr (fun c hc => by
    rcases local6Cmds_site r.tunname r.local6
      (normalize6 (scanLocalAddrs cfg.LocalAddrs).localAddr6) c hc with hs | hs <;>
      simp [hs, Site.isLocal6] :
    ∀ c ∈ local6Cmds r.tunname r.local6
      (normalize6 (scanLocalAddrs cfg.LocalAddrs).localAddr6), c.site.isLocal6 = true)
  have hr : ∀ l : List Cmd, (∀ c ∈ l, c.site.isRouteSet = true) →
      l.filter (fun c => c.site.isLocal6) = [] := by
    intro l hl
    rw [List.filter_eq_nil_iff]
    intro c hc
    have := hl c hc
    cases hs : c.site <;> simp [hs, Site.isRouteSet, Site.isLocal6] at this ⊢
  rw [SetPlan_eq_append, List.filter_append, List.filter_append, h4, h6, hr _ (by
    intro c hc
    rcases List.mem_append.mp hc with h | h
    · obtain ⟨p, _, rfl⟩ := List.mem_map.mp h
      simp [routedel, Site.isRouteSet]
    · obtain ⟨p, _, rfl⟩ := List.mem_map.mp h
      simp [routeadd, Site.isRouteSet])]
  simp

/-! ## The arguments of the commands -/

theorem local4Cmds_argv (tunname : String) (P D : Prefix) (c : Cmd)
    (hc : c ∈ local4Cmds tunname P D) :
    (c.site = Site.addr4Del → c.argv = ["ifconfig", tunname, "inet", P.String, "-alias"]) ∧
    (c.site = Site.host4Del →
      c.argv = ["route", "-q", "-n", "delete", "-inet", P.String, "-iface", P.Addr.String]) ∧
    (c.site = Site.addr4Add → c.argv = ["ifconfig", tunname, "inet", D.String, "alias"]) ∧
    (c.site = Site.host4Add →
      c.argv = ["route", "-q", "-n", "add", "-inet", D.String, "-iface", D.Addr.String]) := by
  unfold local4Cmds at hc
  by_cases h : D = P
  · simp [h] at hc
  · by_cases h1 : P.IsValid = true <;> by_cases h2 : D.IsValid = true <;>
      simp [h, h1, h2] at hc <;> rcases hc with rfl | rfl | rfl | rfl <;> simp

theorem local6Cmds_argv (tunname : String) (P D : Prefix) (c : Cmd)
    (hc : c ∈ local6Cmds tunname P D) :
    (c.site = Site.addr6Del → c.argv = ["ifconfig", tunname, "inet6", P.String, "delete"]) ∧
    (c.site = Site.addr6Add → c.argv = ["ifconfig", tunname, "inet6", D.String]) := by
  unfold local6Cmds at hc
  by_cases h : D = P
  · simp [h] at hc
  · by_cases h1 : P.IsValid = true <;> by_cases h2 : D.IsValid = true <;>
      simp [h, h1, h2] at hc <;> rcases hc with rfl | rfl <;> simp

theorem mem_SetPlan_cases (ord : MapOrder) (r : netbsdRouter) (cfg : Config) (c : Cmd)
    (hc : c ∈ SetPlan ord r cfg) :
    c ∈ local4Cmds r.tunname r.local4 (scanLocalAddrs cfg.LocalAddrs).localAddr4 ∨
    c ∈ local6Cmds r.tunname r.local6 (normalize6 (scanLocalAddrs cfg.LocalAddrs).localAddr6) ∨
    (∃ p, c = routedel (scanLocalAddrs cfg.LocalAddrs).localAddr4
      (normalize6 (scanLocalAddrs cfg.LocalAddrs).localAddr6) p) ∨
    (∃ p, c = routeadd (scanLocalAddrs cfg.LocalAddrs).localAddr4
      (normalize6 (scanLocalAddrs cfg.LocalAddrs).localAddr6) p) := by
  rw [SetPlan_eq_append] at hc
  rcases List.mem_append.mp hc with h | h
  · rcases List.mem_append.mp h with h | h
    · exact Or.inl h
    · exact Or.inr (Or.inl h)
  · rcases List.mem_append.mp h with h | h
    · obtain ⟨p, _, rfl⟩ := List.mem_map.mp h
      exact Or.inr (Or.inr (Or.inl ⟨p, rfl⟩))
    · obtain ⟨p, _, rfl⟩ := List.mem_map.mp h
      exact Or.inr (Or.inr (Or.inr ⟨p, rfl⟩))

theorem Is6_false_of_Is4 (a : netip.Addr) (h : a.Is4 = true) : a.Is6 = false := by
  cases a <;> simp [netip.Addr.Is4, netip.Addr.Is6] at h ⊢

theorem sub_mod_eq_div_mul (x k : Nat) : x - x % k = x / k * k := by
  have h1 := Nat.div_add_mod x k
  have h2 := Nat.mul_comm k (x / k)
  omega

theorem maskedIP_eq (a w n : Nat) (h : a < 2 ^ w) :
    maskedIP a w n = a - a % 2 ^ (w - n) := by
  unfold maskedIP
  rw [Nat.mod_eq_of_lt h, sub_mod_eq_div_mul]

theorem routeDest_eq (p : Prefix) (h : wellFormed p) :
    routeDest p =
      netIPString (clearHostBits p.Addr (p.bitsPlusOne - 1)) ++ "/" ++ toString p.Bits := by
  obtain ⟨ip, b⟩ := p
  cases ip with
  | zero => simp [wellFormed] at h
  | v4 a =>
    simp only [wellFormed] at h
    obtain ⟨ha, hb0, hb⟩ := h
    have hv : (decide (b > 0)) = true := by simpa using hb0
    have hle : ¬ (b - 1 > 32) := by omega
    simp only [routeDest, netip.Prefix.IsValid, hv, hle, netip.Prefix.Addr, clearHostBits,
      netIPString, maskedIP_eq a 32 (b - 1) ha]
    simp
  | v6 a =>
    simp only [wellFormed] at h
    obtain ⟨ha, hb0, hb⟩ := h
    have hv : (decide (b > 0)) = true := by simpa using hb0
    have hle : ¬ (b - 1 > 128) := by omega
    simp only [routeDest, netip.Prefix.IsValid, hv, hle, netip.Prefix.Addr, clearHostBits,
      netIPString, maskedIP_eq a 128 (b - 1) ha]
    simp

theorem clearHostBits_bits (a : netip.Addr) (n : Nat) :
    hostBits (clearHostBits a n) n = 0 ∧ firstBits (clearHostBits a n) n = firstBits a n := by
  cases a with
  | zero => exact ⟨rfl, rfl⟩
  | v4 x =>
    simp only [hostBits, firstBits, clearHostBits, sub_mod_eq_div_mul]
    exact ⟨Nat.mul_mod_left _ _, Nat.mul_div_cancel _ (Nat.pos_pow_of_pos _ (by decide))⟩
  | v6 x =>
    simp only [hostBits, firstBits, clearHostBits, sub_mod_eq_div_mul]
    exact ⟨Nat.mul_mod_left _ _, Nat.mul_div_cancel _ (Nat.pos_pow_of_pos _ (by decide))⟩

theorem clearHostBits_eq_of_firstBits (a b : netip.Addr) (n : Nat) (hf : a.Is4 = b.Is4)
    (ha : a ≠ .zero) (hb : b ≠ .zero) (h : firstBits a n = firstBits b n) :
    clearHostBits a n = clearHostBits b n := by
  cases a <;> cases b <;>
    simp [netip.Addr.Is4, firstBits, clearHostBits, sub_mod_eq_div_mul] at hf ha hb h ⊢ <;>
    rw [h]

/-! ## The readiness loop of `Up` -/

theorem checkLoop_spec (ex : UpExecutor) (tunname : String) (n : Nat) :
    ∀ log : List UpCmd, (checkLoop ex tunname n log).2 = none ∧
      ∃ k, k ≤ n ∧ (checkLoop ex tunname n log).1 =
        log ++ List.replicate k ⟨UpSite.check, ["ifconfig", tunname]⟩ := by
  induction n with
  | zero =>
    intro log
    exact ⟨rfl, 0, Nat.le_refl 0, by simp [checkLoop]⟩
  | succ n ih =>
    intro log
    unfold checkLoop
    simp only []
    split
    · exact ⟨rfl, 1, by omega, by simp⟩
    · obtain ⟨h1, k, hk, h2⟩ := ih (log ++ [⟨UpSite.check, ["ifconfig", tunname]⟩])
      refine ⟨h1, k + 1, by omega, ?_⟩
      rw [h2, List.replicate_succ]
      simp

theorem checkLoop_never_up (ex : UpExecutor) (tunname : String)
    (hdown : ∀ hist, ¬ ((ex hist ["ifconfig", tunname]).2 = none ∧
      (ex hist ["ifconfig", tunname]).1.length > 0 ∧
      stringsContains (ex hist ["ifconfig", tunname]).1 "status: down" = false)) (n : Nat) :
    ∀ log : List UpCmd, (checkLoop ex tunname n log).1 =
      log ++ List.replicate n ⟨UpSite.check, ["ifconfig", tunname]⟩ := by
  induction n with
  | zero => intro log; simp [checkLoop]
  | succ n ih =>
    intro log
    unfold checkLoop
    simp only []
    rw [if_neg (hdown _), ih, List.replicate_succ]
    simp

theorem countP_check_prelude (tunname : String) :
    ([⟨UpSite.ifup, ["ifconfig", tunname, "inet", "100.64.0.1/32", "up"]⟩] ++ sysctlCmds ++
      [⟨UpSite.inetInit, ["sudo ifconfig tun0 inet 100.64.0.1/32 up"]⟩] : List UpCmd).countP
      (fun c => decide (c.site = UpSite.check)) = 0 := by
  rw [List.countP_eq_zero]
  intro c hc
  simp only [List.mem_append, List.mem_singleton, sysctlCmds, List.mem_map] at hc
  rcases hc with (rfl | ⟨x, _, rfl⟩) | rfl <;> simp

theorem countP_check_replicate (tunname : String) (k : Nat) :
    (List.replicate k (⟨UpSite.check, ["ifconfig", tunname]⟩ : UpCmd)).countP
      (fun c => decide (c.site = UpSite.check)) = k := by
  induction k with
  | zero => rfl
  | succ k ih => rw [List.replicate_succ, List.countP_cons, ih]; simp

/-! ## The properties -/

/-- C1 (idempotence of `Set`): for every applied state, every desired
configuration (nil included), every outcome of the commands of either call and
every map iteration order, a second `Set` with the same configuration right
after the first runs no command and leaves the router, with `local4`, `local6`
and `routes`, exactly as the first call left it. -/
theorem Set_idempotent (ex1 ex2 : Executor) (ord1 ord2 : MapOrder) (r : netbsdRouter)
    (cfg : Option Config) :
    (Set ex2 ord2 (Set ex1 ord1 r cfg).router cfg).cmds = [] ∧
    (Set ex2 ord2 (Set ex1 ord1 r cfg).router cfg).router = (Set ex1 ord1 r cfg).router := by
  rcases cfg_cases cfg with h | ⟨c, rfl, h⟩ | ⟨c, rfl, hne, h4, h6⟩
  · simp [Set_of_no_addrs _ _ _ cfg h]
  · simp [Set_of_multiple _ _ _ c h]
  · rw [Set_of_accepted ex1 ord1 r c hne h4 h6]
    simp only []
    rw [Set_of_accepted ex2 ord2 _ c hne h4 h6]
    simp only [SetPlan_applied]
    exact ⟨trivial, trivial⟩

/-- C2 as stated fails: after a configuration with an IPv4 address, an IPv6
address and a route has been applied to a new router, `Set(nil)` runs no
command at all, so no delete of an address or of the route, and leaves the
IPv4 address, the IPv6 address and the route applied. -/
theorem Set_nil_leaves_everything_applied :
    (Set okExec MapOrder.insertion (newUserspaceRouter "tun0")
      (some ⟨[prefix4 100 64 0 1 32, ⟨.v6 0xfd7a115ca1e00000000000000000abcd, 129⟩],
        [prefix4 10 0 0 0 24]⟩)).router =
      ⟨"tun0", prefix4 100 64 0 1 32, ⟨.v6 0xfd7a115ca1e00000000000000000abcd, 49⟩,
        [prefix4 10 0 0 0 24]⟩ ∧
    (Set okExec MapOrder.insertion
      ⟨"tun0", prefix4 100 64 0 1 32, ⟨.v6 0xfd7a115ca1e00000000000000000abcd, 49⟩,
        [prefix4 10 0 0 0 24]⟩ none).cmds = [] ∧
    (Set okExec MapOrder.insertion
      ⟨"tun0", prefix4 100 64 0 1 32, ⟨.v6 0xfd7a115ca1e00000000000000000abcd, 49⟩,
        [prefix4 10 0 0 0 24]⟩ none).router =
      ⟨"tun0", prefix4 100 64 0 1 32, ⟨.v6 0xfd7a115ca1e00000000000000000abcd, 49⟩,
        [prefix4 10 0 0 0 24]⟩ ∧
    (prefix4 100 64 0 1 32).IsValid = true := by
  decide

/-- C2 as amended (no teardown on nil): for every applied state produced by
an earlier `Set`, with a non-empty configuration or any other, and whatever
the commands return, `Set(nil)` stands for `Set` of the all-empty
configuration, which has no local address: it returns nil, runs no command
(no delete of the applied IPv4 address, its host route, the applied IPv6
address or an applied route), and afterwards `local4`, `local6` and `routes`
are exactly as the earlier `Set` left them. -/
theorem Set_nil_runs_nothing (ex1 ex2 : Executor) (ord1 ord2 : MapOrder) (r : netbsdRouter)
    (cfg : Config) :
    (Set ex2 ord2 (Set ex1 ord1 r (some cfg)).router none).err = none ∧
    (Set ex2 ord2 (Set ex1 ord1 r (some cfg)).router none).cmds = [] ∧
    (Set ex2 ord2 (Set ex1 ord1 r (some cfg)).router none).router =
      (Set ex1 ord1 r (some cfg)).router ∧
    (Set ex2 ord2 (Set ex1 ord1 r (some cfg)).router none).router.local4 =
      (Set ex1 ord1 r (some cfg)).router.local4 ∧
    (Set ex2 ord2 (Set ex1 ord1 r (some cfg)).router none).router.local6 =
      (Set ex1 ord1 r (some cfg)).router.local6 ∧
    (Set ex2 ord2 (Set ex1 ord1 r (some cfg)).router none).router.routes =
      (Set ex1 ord1 r (some cfg)).router.routes := by
  rw [Set_of_no_addrs ex2 ord2 _ none rfl]
  exact ⟨rfl, rfl, rfl, rfl, rfl, rfl⟩

/-- C5 (the configuration error is free of side effects): `Set` returns the
error for multiple local addresses if and only if the desired local addresses
hold more than one IPv4 address or more than one IPv6 address, and in that
case it runs no command and leaves the router unchanged. -/
theorem Set_multiple_addrs_error (ex : Executor) (ord : MapOrder) (r : netbsdRouter)
    (cfg : Option Config) :
    ((Set ex ord r cfg).err = some Error.multipleLocalAddrs ↔
      (1 < countIPv4 (desiredAddrs cfg) ∨ 1 < countIPv6 (desiredAddrs cfg))) ∧
    ((1 < countIPv4 (desiredAddrs cfg) ∨ 1 < countIPv6 (desiredAddrs cfg)) →
      (Set ex ord r cfg).cmds = [] ∧ (Set ex ord r cfg).router = r) := by
  rcases cfg_cases cfg with h | ⟨c, rfl, h⟩ | ⟨c, rfl, hne, h4, h6⟩
  · simp [Set_of_no_addrs _ _ _ cfg h, h, countIPv4, countIPv6]
  · simp [Set_of_multiple _ _ _ c h, desiredAddrs, h]
  · rw [Set_of_accepted ex ord r c hne h4 h6]
    have hno : ¬ (1 < countIPv4 c.LocalAddrs ∨ 1 < countIPv6 c.LocalAddrs) := by omega
    simp only [desiredAddrs]
    refine ⟨⟨?_, fun h => absurd h hno⟩, fun h => absurd h hno⟩
    intro h
    cases hf : firstFailure ex [] (SetPlan ord r c) with
    | none => simp [hf] at h
    | some e => simp [hf] at h

/-- The configuration error at a concrete input: two IPv4 local addresses. -/
theorem Set_multiple_addrs_error_witness :
    (Set failExec MapOrder.insertion (newUserspaceRouter "tun0")
        (some ⟨[prefix4 100 64 0 1 32, prefix4 100 64 0 2 32], [prefix4 10 0 0 0 24]⟩)).cmds = [] ∧
    (Set failExec MapOrder.insertion (newUserspaceRouter "tun0")
        (some ⟨[prefix4 100 64 0 1 32, prefix4 100 64 0 2 32], [prefix4 10 0 0 0 24]⟩)).router =
      newUserspaceRouter "tun0" :=
  (Set_multiple_addrs_error failExec MapOrder.insertion (newUserspaceRouter "tun0")
    (some ⟨[prefix4 100 64 0 1 32, prefix4 100 64 0 2 32], [prefix4 10 0 0 0 24]⟩)).2
    (Or.inl (by decide))

/-- C7 (best effort, family isolation): for every applied state, desired
configuration and map iteration order, the sequence of commands `Set` runs is
the same under any two executors, that is for any two assignments of success
and failure to the commands; a failing IPv4 command removes no later command. -/
theorem Set_cmds_independent_of_outcomes (ex1 ex2 : Executor) (ord : MapOrder)
    (r : netbsdRouter) (cfg : Option Config) :
    (Set ex1 ord r cfg).cmds = (Set ex2 ord r cfg).cmds := by
  rcases cfg_cases cfg with h | ⟨c, rfl, h⟩ | ⟨c, rfl, hne, h4, h6⟩
  · simp [Set_of_no_addrs _ _ _ cfg h]
  · simp [Set_of_multiple _ _ _ c h]
  · rw [Set_of_accepted ex1 ord r c hne h4 h6, Set_of_accepted ex2 ord r c hne h4 h6]

/-- C8 (the first error wins): for every desired configuration (nil
included) with at most one local address per family, `Set` returns nil if
every command it ran succeeded, and otherwise returns exactly the error of
the earliest failing command in the order the commands were run. -/
theorem Set_returns_first_error (ex : Executor) (ord : MapOrder) (r : netbsdRouter)
    (cfg : Option Config)
    (h4 : countIPv4 (desiredAddrs cfg) ≤ 1) (h6 : countIPv6 (desiredAddrs cfg) ≤ 1) :
    ((∀ i, i < (Set ex ord r cfg).cmds.length → outcome ex (Set ex ord r cfg).cmds i = none) →
      (Set ex ord r cfg).err = none) ∧
    (∀ i e, outcome ex (Set ex ord r cfg).cmds i = some e →
      (∀ j, j < i → outcome ex (Set ex ord r cfg).cmds j = none) →
      (Set ex ord r cfg).err = some (Error.command e)) := by
  rcases cfg_cases cfg with h | ⟨c, rfl, h⟩ | ⟨c, rfl, hne, _, _⟩
  · rw [Set_of_no_addrs _ _ _ cfg h]
    refine ⟨fun _ => rfl, ?_⟩
    intro i e hi
    rw [outcome_none_of_length_le ex [] i (Nat.zero_le i)] at hi
    exact absurd hi (by simp)
  · simp only [desiredAddrs] at h4 h6
    omega
  · rw [Set_of_accepted ex ord r c hne h4 h6]
    simp only []
    rcases firstFailure_outcome ex (SetPlan ord r c) with ⟨hnone, hall⟩ | ⟨i, e, hi, hff, hbefore⟩
    · refine ⟨fun _ => by simp [hnone], ?_⟩
      intro i e hi _
      by_cases hlt : i < (SetPlan ord r c).length
      · rw [hall i hlt] at hi
        exact absurd hi (by simp)
      · rw [outcome_none_of_length_le ex _ i (by omega)] at hi
        exact absurd hi (by simp)
    · constructor
      · intro hall
        by_cases hlt : i < (SetPlan ord r c).length
        · rw [hall i hlt] at hi
          exact absurd hi (by simp)
        · rw [outcome_none_of_length_le ex _ i (by omega)] at hi
          exact absurd hi (by simp)
      · intro k e2 hk hkbefore
        have hik : i = k := by
          rcases Nat.lt_trichotomy i k with hlt | heq | hgt
          · rw [hkbefore i hlt] at hi
            exact absurd hi (by simp)
          · exact heq
          · rw [hbefore k hgt] at hk
            exact absurd hk (by simp)
        subst hik
        rw [hi] at hk
        cases hk
        simp [hff]

/-- The first error at a concrete input: a new router, an IPv4 address and a
route, with the commands at positions 1 and 2 failing; `Set` returns the error
of the command at position 1. -/
theorem Set_returns_first_error_witness :
    (Set (failFrom 1) MapOrder.insertion (newUserspaceRouter "tun0")
      (some ⟨[prefix4 100 64 0 1 32], [prefix4 10 0 0 0 24]⟩)).err =
      some (Error.command ⟨"command 1 failed"⟩) :=
  (Set_returns_first_error (failFrom 1) MapOrder.insertion (newUserspaceRouter "tun0")
    (some ⟨[prefix4 100 64 0 1 32], [prefix4 10 0 0 0 24]⟩) (by decide) (by decide)).2
    1 ⟨"command 1 failed"⟩ (by decide) (by decide)

/-- C10 (addresses before routes): in the command sequence of every call of
`Set`, every address command (an IPv4 alias delete or add, its companion host
route, an IPv6 address delete or add) stands before every command of the two
loops over the route sets. -/
theorem Set_addresses_before_routes (ex : Executor) (ord : MapOrder) (r : netbsdRouter)
    (cfg : Option Config) (i j : Nat) (c d : Cmd)
    (hi : (Set ex ord r cfg).cmds[i]? = some c) (hj : (Set ex ord r cfg).cmds[j]? = some d)
    (hc : c.site.isAddress = true) (hd : d.site.isRouteSet = true) : i < j := by
  rcases cfg_cases cfg with h | ⟨k, rfl, h⟩ | ⟨k, rfl, hne, h4, h6⟩
  · rw [Set_of_no_addrs _ _ _ cfg h] at hi
    simp at hi
  · rw [Set_of_multiple _ _ _ k h] at hi
    simp at hi
  · rw [Set_of_accepted ex ord r k hne h4 h6] at hi hj
    simp only [] at hi hj
    obtain ⟨A, B, hAB, hA, hB⟩ := SetPlan_split ord r k
    rw [hAB] at hi hj
    exact getElem?_lt_of_append A B (fun x => x.site.isAddress = true)
      (fun x => x.site.isRouteSet = true)
      (fun x hx => by simp [(hA x hx).2]) (fun x hx => by simp [(hB x hx).2]) i j c d hi hj hc hd

/-- Addresses before routes at a concrete input: replacing the IPv4 address
and one route, the host route add is at position 3 and the route delete at
position 4. -/
theorem Set_addresses_before_routes_witness :
    (Set okExec MapOrder.insertion
      ⟨"tun0", prefix4 100 64 0 1 32, ⟨.zero, 0⟩, [prefix4 10 0 0 0 24]⟩
      (some ⟨[prefix4 100 64 0 2 32], [prefix4 10 1 0 0 24]⟩)).cmds[3]? =
      some ⟨.host4Add,
        ["route", "-q", "-n", "add", "-inet", "100.64.0.2/32", "-iface", "100.64.0.2"]⟩ ∧
    (Set okExec MapOrder.insertion
      ⟨"tun0", prefix4 100 64 0 1 32, ⟨.zero, 0⟩, [prefix4 10 0 0 0 24]⟩
      (some ⟨[prefix4 100 64 0 2 32], [prefix4 10 1 0 0 24]⟩)).cmds[4]? =
      some ⟨.routeDel (prefix4 10 0 0 0 24),
        ["route", "-q", "-n", "del", "-inet", "10.0.0.0/24", "-iface", "100.64.0.2"]⟩ ∧
    3 < 4 :=
  ⟨by decide, by decide,
    Set_addresses_before_routes okExec MapOrder.insertion
      ⟨"tun0", prefix4 100 64 0 1 32, ⟨.zero, 0⟩, [prefix4 10 0 0 0 24]⟩
      (some ⟨[prefix4 100 64 0 2 32], [prefix4 10 1 0 0 24]⟩) 3 4
      ⟨.host4Add, ["route", "-q", "-n", "add", "-inet", "100.64.0.2/32", "-iface", "100.64.0.2"]⟩
      ⟨.routeDel (prefix4 10 0 0 0 24),
        ["route", "-q", "-n", "del", "-inet", "10.0.0.0/24", "-iface", "100.64.0.2"]⟩
      (by decide) (by decide) (by decide) (by decide)⟩

/-- C9 as stated fails: with 100.64.0.1/32 applied and a desired
configuration without local addresses (so the desired IPv4 address is absent
and differs from the applied one), `Set` runs no IPv4 address command, not
the alias delete with its host route delete. -/
theorem Set_no_addrs_keeps_local4 :
    desired4 (desiredAddrs (some ⟨[], []⟩)) ≠ prefix4 100 64 0 1 32 ∧
    (prefix4 100 64 0 1 32).IsValid = true ∧
    (Set okExec MapOrder.insertion ⟨"tun0", prefix4 100 64 0 1 32, ⟨.zero, 0⟩, []⟩
      (some ⟨[], []⟩)).cmds.filter (fun c => c.site.isLocal4) = [] ∧
    (Set okExec MapOrder.insertion ⟨"tun0", prefix4 100 64 0 1 32, ⟨.zero, 0⟩, []⟩
      (some ⟨[], []⟩)).cmds.filter (fun c => c.site.isLocal4) ≠
      [⟨.addr4Del, ["ifconfig", "tun0", "inet", "100.64.0.1/32", "-alias"]⟩,
       ⟨.host4Del, ["route", "-q", "-n", "delete", "-inet", "100.64.0.1/32",
          "-iface", "100.64.0.1"]⟩] := by
  decide

/-- C9 as amended (IPv4 address reconciliation): for every applied IPv4
prefix `r.local4` and every desired configuration with at least one local
address and at most one per family, the IPv4 address commands `Set` runs are,
in order: none if the desired IPv4 prefix equals the applied one; otherwise,
if the applied one is valid, the alias delete and the host route delete of the
applied prefix, followed, if the desired one is valid, by the alias add and
the host route add of the desired prefix. -/
theorem Set_local4_commands (ex : Executor) (ord : MapOrder) (r : netbsdRouter) (cfg : Config)
    (hne : cfg.LocalAddrs ≠ []) (h4 : countIPv4 cfg.LocalAddrs ≤ 1)
    (h6 : countIPv6 cfg.LocalAddrs ≤ 1) :
    (Set ex ord r (some cfg)).cmds.filter (fun c => c.site.isLocal4) =
      if desired4 cfg.LocalAddrs = r.local4 then []
      else
        (if r.local4.IsValid then
          [⟨.addr4Del, ["ifconfig", r.tunname, "inet", r.local4.String, "-alias"]⟩,
           ⟨.host4Del, ["route", "-q", "-n", "delete", "-inet", r.local4.String,
              "-iface", r.local4.Addr.String]⟩]
         else []) ++
        (if (desired4 cfg.LocalAddrs).IsValid then
          [⟨.addr4Add, ["ifconfig", r.tunname, "inet", (desired4 cfg.LocalAddrs).String, "alias"]⟩,
           ⟨.host4Add, ["route", "-q", "-n", "add", "-inet", (desired4 cfg.LocalAddrs).String,
              "-iface", (desired4 cfg.LocalAddrs).Addr.String]⟩]
         else []) := by
  rw [Set_of_accepted ex ord r cfg hne h4 h6]
  simp only []
  rw [filter_isLocal4_SetPlan, scan_localAddr4 cfg h4]
  rfl

/-- The IPv4 address commands at a concrete input: 100.64.0.1/32 applied,
100.64.0.2/32 desired, every command failing. -/
theorem Set_local4_commands_witness :
    (Set failExec MapOrder.insertion ⟨"tun0", prefix4 100 64 0 1 32, ⟨.zero, 0⟩, []⟩
      (some ⟨[prefix4 100 64 0 2 32], []⟩)).cmds.filter (fun c => c.site.isLocal4) =
      [⟨.addr4Del, ["ifconfig", "tun0", "inet", "100.64.0.1/32", "-alias"]⟩,
       ⟨.host4Del, ["route", "-q", "-n", "delete", "-inet", "100.64.0.1/32",
          "-iface", "100.64.0.1"]⟩,
       ⟨.addr4Add, ["ifconfig", "tun0", "inet", "100.64.0.2/32", "alias"]⟩,
       ⟨.host4Add, ["route", "-q", "-n", "add", "-inet", "100.64.0.2/32",
          "-iface", "100.64.0.2"]⟩] :=
  (Set_local4_commands failExec MapOrder.insertion
    ⟨"tun0", prefix4 100 64 0 1 32, ⟨.zero, 0⟩, []⟩ ⟨[prefix4 100 64 0 2 32], []⟩
    (by decide) (by decide) (by decide)).trans (by decide)

/-- C6 as stated fails: the desired IPv6 address 2001:db8::1/64 is passed to
the add command and stored as 2001:db8::1/48; the address bits beyond the
first 48 are kept, so it is not the network 2001:db8::/48. -/
theorem Set_local6_keeps_host_bits :
    (Set okExec MapOrder.insertion (newUserspaceRouter "tun0")
      (some ⟨[⟨.v6 0x20010db8000000000000000000000001, 65⟩], []⟩)).router.local6 =
      ⟨.v6 0x20010db8000000000000000000000001, 49⟩ ∧
    (Set okExec MapOrder.insertion (newUserspaceRouter "tun0")
      (some ⟨[⟨.v6 0x20010db8000000000000000000000001, 65⟩], []⟩)).router.local6 ≠
      ⟨.v6 0x20010db8000000000000000000000000, 49⟩ ∧
    (Set okExec MapOrder.insertion (newUserspaceRouter "tun0")
      (some ⟨[⟨.v6 0x20010db8000000000000000000000001, 65⟩], []⟩)).cmds =
      [⟨.addr6Add, ["ifconfig", "tun0", "inet6", "2001:db8::1/48"]⟩] ∧
    (⟨.v6 0x20010db8000000000000000000000000, 49⟩ : Prefix).String = "2001:db8::/48" ∧
    0x20010db8000000000000000000000001 % 2 ^ (128 - 48) ≠ 0 := by
  decide

/-- C6 as amended (IPv6 normalisation): for every desired configuration with
at most one local address per family whose IPv6 local address is a valid
prefix `p`, the prefix `Set` stores in `local6` has mask length 48 and the
address of `p` unchanged (host bits are not cleared), and the IPv6 add
command, run exactly when that prefix differs from the applied one, carries
the text of that address followed by `/48`. -/
theorem Set_local6_slash48 (ex : Executor) (ord : MapOrder) (r : netbsdRouter) (cfg : Config)
    (p : Prefix) (hp : p ∈ cfg.LocalAddrs) (hp6 : p.Addr.Is6 = true) (hv : p.IsValid = true)
    (h4 : countIPv4 cfg.LocalAddrs ≤ 1) (h6 : countIPv6 cfg.LocalAddrs ≤ 1) :
    (Set ex ord r (some cfg)).router.local6 = ⟨p.Addr, 49⟩ ∧
    (Set ex ord r (some cfg)).router.local6.Bits = 48 ∧
    (Set ex ord r (some cfg)).router.local6.Addr = p.Addr ∧
    (Set ex ord r (some cfg)).cmds.filter (fun c => decide (c.site = Site.addr6Add)) =
      if (⟨p.Addr, 49⟩ : Prefix) = r.local6 then []
      else [⟨.addr6Add, ["ifconfig", r.tunname, "inet6", p.Addr.String ++ "/48"]⟩] := by
  have hne : cfg.LocalAddrs ≠ [] := List.ne_nil_of_mem hp
  have hd : (scanLocalAddrs cfg.LocalAddrs).localAddr6 = p := by
    rw [scan_localAddr6 cfg h6, desired6,
      find?_eq_of_countP_le_one (fun a => a.Addr.Is6) cfg.LocalAddrs p h6 hp hp6]
    rfl
  rw [Set_of_accepted ex ord r cfg hne h4 h6]
  simp only []
  rw [filter_addr6Add_SetPlan, hd, normalize6_of_valid p hp6 hv]
  refine ⟨rfl, by simp [netip.Prefix.Bits], rfl, ?_⟩
  unfold local6Cmds
  by_cases he : (⟨p.Addr, 49⟩ : Prefix) = r.local6
  · simp [he]
  · by_cases hl : r.local6.IsValid = true
    · simp [he, hl, netip.Prefix.IsValid, List.filter_cons, String_of_slash48]
    · simp [he, hl, netip.Prefix.IsValid, List.filter_cons, String_of_slash48]

/-- The IPv6 normalisation at a concrete input: 2001:db8::1/64 on a new
router is stored with mask length 48 and its address unchanged. -/
theorem Set_local6_slash48_witness :
    (Set failExec MapOrder.insertion (newUserspaceRouter "tun0")
      (some ⟨[⟨.v6 0x20010db8000000000000000000000001, 65⟩], []⟩)).router.local6 =
      ⟨.v6 0x20010db8000000000000000000000001, 49⟩ :=
  (Set_local6_slash48 failExec MapOrder.insertion (newUserspaceRouter "tun0")
    ⟨[⟨.v6 0x20010db8000000000000000000000001, 65⟩], []⟩
    ⟨.v6 0x20010db8000000000000000000000001, 65⟩
    (by decide) (by decide) (by decide) (by decide) (by decide)).1


/-- C4 as stated fails, at its own example: with the routes 10.0.0.0/24 and
10.1.0.0/24 applied and the desired configuration holding only the routes
10.1.0.0/24 and 10.2.0.0/24 (no local address, so at most one per family),
`Set` runs no command: there is no delete of 10.0.0.0/24 and no add of
10.2.0.0/24, and the applied routes stay as they were. -/
theorem Set_routes_only_config_runs_nothing :
    countIPv4 (desiredAddrs (some ⟨[], [prefix4 10 1 0 0 24, prefix4 10 2 0 0 24]⟩)) ≤ 1 ∧
    countIPv6 (desiredAddrs (some ⟨[], [prefix4 10 1 0 0 24, prefix4 10 2 0 0 24]⟩)) ≤ 1 ∧
    (Set okExec MapOrder.insertion
      ⟨"tun0", prefix4 100 64 0 1 32, ⟨.zero, 0⟩, [prefix4 10 0 0 0 24, prefix4 10 1 0 0 24]⟩
      (some ⟨[], [prefix4 10 1 0 0 24, prefix4 10 2 0 0 24]⟩)).cmds = [] ∧
    (Set okExec MapOrder.insertion
      ⟨"tun0", prefix4 100 64 0 1 32, ⟨.zero, 0⟩, [prefix4 10 0 0 0 24, prefix4 10 1 0 0 24]⟩
      (some ⟨[], [prefix4 10 1 0 0 24, prefix4 10 2 0 0 24]⟩)).cmds.countP
        (fun c => decide (c.site = Site.routeDel (prefix4 10 0 0 0 24))) ≠ 1 ∧
    (Set okExec MapOrder.insertion
      ⟨"tun0", prefix4 100 64 0 1 32, ⟨.zero, 0⟩, [prefix4 10 0 0 0 24, prefix4 10 1 0 0 24]⟩
      (some ⟨[], [prefix4 10 1 0 0 24, prefix4 10 2 0 0 24]⟩)).cmds.countP
        (fun c => decide (c.site = Site.routeAdd (prefix4 10 2 0 0 24))) ≠ 1 ∧
    (Set okExec MapOrder.insertion
      ⟨"tun0", prefix4 100 64 0 1 32, ⟨.zero, 0⟩, [prefix4 10 0 0 0 24, prefix4 10 1 0 0 24]⟩
      (some ⟨[], [prefix4 10 1 0 0 24, prefix4 10 2 0 0 24]⟩)).router.routes =
      [prefix4 10 0 0 0 24, prefix4 10 1 0 0 24] := by
  decide

/-- C4 as amended (route minimality): for every applied state (its routes a
set, that is without duplicates), every desired configuration with at least
one local address and at most one per family, and every map iteration order,
`Set` runs exactly one route delete for each prefix in the applied routes that
is not in the desired routes and none for any other prefix, exactly one route
add for each prefix in the desired routes that is not in the applied routes
and none for any other prefix, so the number of commands of the two route
loops is the size of the symmetric difference; each such command is the
`route` command of its prefix. -/
theorem Set_route_minimality (ex : Executor) (ord : MapOrder) (r : netbsdRouter) (cfg : Config)
    (hnd : r.routes.Nodup) (hne : cfg.LocalAddrs ≠ [])
    (h4 : countIPv4 cfg.LocalAddrs ≤ 1) (h6 : countIPv6 cfg.LocalAddrs ≤ 1) :
    (∀ p, (Set ex ord r (some cfg)).cmds.countP (fun c => decide (c.site = Site.routeDel p)) =
      if p ∈ r.routes ∧ p ∉ cfg.Routes then 1 else 0) ∧
    (∀ p, (Set ex ord r (some cfg)).cmds.countP (fun c => decide (c.site = Site.routeAdd p)) =
      if p ∈ cfg.Routes ∧ p ∉ r.routes then 1 else 0) ∧
    (Set ex ord r (some cfg)).cmds.countP (fun c => c.site.isRouteSet) =
      (symmDiff r.routes.toFinset cfg.Routes.toFinset).card ∧
    (∀ c ∈ (Set ex ord r (some cfg)).cmds, ∀ p,
      (c.site = Site.routeDel p →
        c.argv = ["route", "-q", "-n", "del", "-" ++ inet p, routeDest p, "-iface",
          routeIface (desired4 cfg.LocalAddrs) (normalize6 (desired6 cfg.LocalAddrs)) p]) ∧
      (c.site = Site.routeAdd p →
        c.argv = ["route", "-q", "-n", "add", "-" ++ inet p, routeDest p, "-iface",
          routeIface (desired4 cfg.LocalAddrs) (normalize6 (desired6 cfg.LocalAddrs)) p])) := by
  rw [Set_of_accepted ex ord r cfg hne h4 h6]
  simp only []
  refine ⟨fun p => SetPlan_countP_routeDel ord r cfg p hnd,
    fun p => SetPlan_countP_routeAdd ord r cfg p,
    SetPlan_countP_isRouteSet ord r cfg hnd, ?_⟩
  intro c hc p
  have h := SetPlan_route_argv ord r cfg c hc p
  rw [scan_localAddr4 cfg h4, scan_localAddr6 cfg h6] at h
  constructor
  · intro hs
    rw [h.1 hs]
    rfl
  · intro hs
    rw [h.2 hs]
    rfl

/-- Route minimality at a concrete input: with 100.64.0.1/32 as the local
address, applied routes 10.0.0.0/24 and 10.1.0.0/24 and desired routes
10.1.0.0/24 and 10.2.0.0/24, there is exactly one delete of 10.0.0.0/24, and
the commands are that delete and the add of 10.2.0.0/24. -/
theorem Set_route_minimality_witness :
    (Set failExec MapOrder.insertion
      ⟨"tun0", prefix4 100 64 0 1 32, ⟨.zero, 0⟩, [prefix4 10 0 0 0 24, prefix4 10 1 0 0 24]⟩
      (some ⟨[prefix4 100 64 0 1 32], [prefix4 10 1 0 0 24, prefix4 10 2 0 0 24]⟩)).cmds.countP
        (fun c => decide (c.site = Site.routeDel (prefix4 10 0 0 0 24))) = 1 ∧
    (Set failExec MapOrder.insertion
      ⟨"tun0", prefix4 100 64 0 1 32, ⟨.zero, 0⟩, [prefix4 10 0 0 0 24, prefix4 10 1 0 0 24]⟩
      (some ⟨[prefix4 100 64 0 1 32], [prefix4 10 1 0 0 24, prefix4 10 2 0 0 24]⟩)).cmds =
      [⟨.routeDel (prefix4 10 0 0 0 24),
          ["route", "-q", "-n", "del", "-inet", "10.0.0.0/24", "-iface", "100.64.0.1"]⟩,
       ⟨.routeAdd (prefix4 10 2 0 0 24),
          ["route", "-q", "-n", "add", "-inet", "10.2.0.0/24", "-iface", "100.64.0.1"]⟩] :=
  ⟨((Set_route_minimality failExec MapOrder.insertion
      ⟨"tun0", prefix4 100 64 0 1 32, ⟨.zero, 0⟩, [prefix4 10 0 0 0 24, prefix4 10 1 0 0 24]⟩
      ⟨[prefix4 100 64 0 1 32], [prefix4 10 1 0 0 24, prefix4 10 2 0 0 24]⟩
      (by decide) (by decide) (by decide) (by decide)).1 (prefix4 10 0 0 0 24)).trans (by decide),
    by decide⟩

/-- C3 as stated fails: from the empty state, after a configuration with the
address 100.64.0.1/32 and the route 10.0.0.0/24, a last configuration with no
local address and the route 10.1.0.0/24 (both have at most one local address
per family) leaves the first one stored: the stored routes are not the routes
of the last configuration, and the stored IPv4 address is not absent. -/
theorem SetSeq_last_without_addrs_not_stored :
    (SetSeq (newUserspaceRouter "tun0")
      [(okExec, MapOrder.insertion, some ⟨[prefix4 100 64 0 1 32], [prefix4 10 0 0 0 24]⟩),
       (okExec, MapOrder.insertion, some ⟨[], [prefix4 10 1 0 0 24]⟩)]).routes =
      [prefix4 10 0 0 0 24] ∧
    prefix4 10 1 0 0 24 ∉ (SetSeq (newUserspaceRouter "tun0")
      [(okExec, MapOrder.insertion, some ⟨[prefix4 100 64 0 1 32], [prefix4 10 0 0 0 24]⟩),
       (okExec, MapOrder.insertion, some ⟨[], [prefix4 10 1 0 0 24]⟩)]).routes ∧
    prefix4 10 1 0 0 24 ∈ (⟨[], [prefix4 10 1 0 0 24]⟩ : Config).Routes ∧
    (SetSeq (newUserspaceRouter "tun0")
      [(okExec, MapOrder.insertion, some ⟨[prefix4 100 64 0 1 32], [prefix4 10 0 0 0 24]⟩),
       (okExec, MapOrder.insertion, some ⟨[], [prefix4 10 1 0 0 24]⟩)]).local4 =
      prefix4 100 64 0 1 32 ∧
    (SetSeq (newUserspaceRouter "tun0")
      [(okExec, MapOrder.insertion, some ⟨[prefix4 100 64 0 1 32], [prefix4 10 0 0 0 24]⟩),
       (okExec, MapOrder.insertion, some ⟨[], [prefix4 10 1 0 0 24]⟩)]).local4 ≠
      desired4 (⟨[], [prefix4 10 1 0 0 24]⟩ : Config).LocalAddrs := by
  decide

/-- C3 as amended (convergence, the last attempted state): for every finite
sequence of desired configurations, each with at most one local address per
family and the last one with at least one local address, applied in order
from the empty state under any executors and map orders (so whatever commands
fail along the way), after the last `Set` the stored routes are exactly the
routes of the last configuration (as a set), the stored IPv4 address is its
IPv4 local address (absent if it has none) and the stored IPv6 address is its
normalised IPv6 local address (absent if it has none). -/
theorem SetSeq_last_attempted (tunname : String)
    (steps : List (Executor × MapOrder × Option Config)) (ex : Executor) (ord : MapOrder)
    (cfg : Config)
    (_hsteps : ∀ s ∈ steps, countIPv4 (desiredAddrs s.2.2) ≤ 1 ∧ countIPv6 (desiredAddrs s.2.2) ≤ 1)
    (hne : cfg.LocalAddrs ≠ [])
    (h4 : countIPv4 cfg.LocalAddrs ≤ 1) (h6 : countIPv6 cfg.LocalAddrs ≤ 1) :
    (∀ p, p ∈ (SetSeq (newUserspaceRouter tunname) (steps ++ [(ex, ord, some cfg)])).routes ↔
      p ∈ cfg.Routes) ∧
    (SetSeq (newUserspaceRouter tunname) (steps ++ [(ex, ord, some cfg)])).routes.Nodup ∧
    (SetSeq (newUserspaceRouter tunname) (steps ++ [(ex, ord, some cfg)])).local4 =
      desired4 cfg.LocalAddrs ∧
    (SetSeq (newUserspaceRouter tunname) (steps ++ [(ex, ord, some cfg)])).local6 =
      normalize6 (desired6 cfg.LocalAddrs) := by
  rw [SetSeq_append]
  simp only [SetSeq]
  rw [Set_of_accepted ex ord _ cfg hne h4 h6]
  simp only []
  exact ⟨fun p => mem_mkNewRoutes cfg.Routes p, nodup_mkNewRoutes cfg.Routes,
    scan_localAddr4 cfg h4, by rw [scan_localAddr6 cfg h6]⟩

/-- The last attempted state at a concrete input: a first configuration whose
commands all fail, then nil, then a configuration with an IPv4 and an IPv6
address and a route given twice, again with every command failing. -/
theorem SetSeq_last_attempted_witness :
    (SetSeq (newUserspaceRouter "tun0")
      ([(failExec, MapOrder.insertion,
          some ⟨[prefix4 100 64 0 1 32], [prefix4 10 0 0 0 24]⟩),
        (okExec, MapOrder.insertion, none)] ++
       [(failExec, MapOrder.insertion,
          some ⟨[prefix4 100 64 0 2 32, ⟨.v6 0x20010db8000000000000000000000001, 65⟩],
            [prefix4 10 1 0 0 24, prefix4 10 1 0 0 24]⟩)])).local4 =
      desired4 [prefix4 100 64 0 2 32, ⟨.v6 0x20010db8000000000000000000000001, 65⟩] :=
  (SetSeq_last_attempted "tun0"
    [(failExec, MapOrder.insertion, some ⟨[prefix4 100 64 0 1 32], [prefix4 10 0 0 0 24]⟩),
     (okExec, MapOrder.insertion, none)]
    failExec MapOrder.insertion
    ⟨[prefix4 100 64 0 2 32, ⟨.v6 0x20010db8000000000000000000000001, 65⟩],
      [prefix4 10 1 0 0 24, prefix4 10 1 0 0 24]⟩
    (by
      intro s hs
      simp only [List.mem_cons, List.mem_singleton, List.not_mem_nil, or_false] at hs
      rcases hs with rfl | rfl <;> decide)
    (by decide) (by decide) (by decide)).2.2.1

/-- C18 (no local addresses, no effect): for every applied state and every
configuration without local addresses, nil or with any routes, `Set` returns
nil, runs no command and leaves the router, with `local4`, `local6` and
`routes`, unchanged. -/
theorem Set_no_local_addrs_noop (ex : Executor) (ord : MapOrder) (r : netbsdRouter)
    (cfg : Option Config) (h : desiredAddrs cfg = []) :
    (Set ex ord r cfg).err = none ∧ (Set ex ord r cfg).cmds = [] ∧
    (Set ex ord r cfg).router = r := by
  rw [Set_of_no_addrs ex ord r cfg h]
  exact ⟨rfl, rfl, rfl⟩

/-- No local addresses at a concrete input: a configuration with two routes
and no address, on a router with an address and a route applied, under an
executor that would fail every command. -/
theorem Set_no_local_addrs_noop_witness :
    (Set failExec MapOrder.insertion
      ⟨"tun0", prefix4 100 64 0 1 32, ⟨.zero, 0⟩, [prefix4 10 0 0 0 24]⟩
      (some ⟨[], [prefix4 10 1 0 0 24, prefix4 10 2 0 0 24]⟩)).err = none ∧
    (Set failExec MapOrder.insertion
      ⟨"tun0", prefix4 100 64 0 1 32, ⟨.zero, 0⟩, [prefix4 10 0 0 0 24]⟩
      (some ⟨[], [prefix4 10 1 0 0 24, prefix4 10 2 0 0 24]⟩)).cmds = [] ∧
    (Set failExec MapOrder.insertion
      ⟨"tun0", prefix4 100 64 0 1 32, ⟨.zero, 0⟩, [prefix4 10 0 0 0 24]⟩
      (some ⟨[], [prefix4 10 1 0 0 24, prefix4 10 2 0 0 24]⟩)).router =
      ⟨"tun0", prefix4 100 64 0 1 32, ⟨.zero, 0⟩, [prefix4 10 0 0 0 24]⟩ :=
  Set_no_local_addrs_noop failExec MapOrder.insertion
    ⟨"tun0", prefix4 100 64 0 1 32, ⟨.zero, 0⟩, [prefix4 10 0 0 0 24]⟩
    (some ⟨[], [prefix4 10 1 0 0 24, prefix4 10 2 0 0 24]⟩) (by decide)

/-- C19 as stated fails: a configuration whose only local address has the
IPv6 address 2001:db8::1 and an invalid mask length (as `netip.PrefixFrom`
gives for a mask length out of range) has one local address, at most one per
family; `Set` accepts it and stores it as it is, so the mask length of the
stored `local6` is -1, not 48. -/
theorem Set_stores_invalid_local6_as_given :
    (⟨[⟨.v6 0x20010db8000000000000000000000001, 0⟩], []⟩ : Config).LocalAddrs ≠ [] ∧
    countIPv4 (⟨[⟨.v6 0x20010db8000000000000000000000001, 0⟩], []⟩ : Config).LocalAddrs ≤ 1 ∧
    countIPv6 (⟨[⟨.v6 0x20010db8000000000000000000000001, 0⟩], []⟩ : Config).LocalAddrs ≤ 1 ∧
    netip.PrefixFrom (.v6 0x20010db8000000000000000000000001) 200 =
      ⟨.v6 0x20010db8000000000000000000000001, 0⟩ ∧
    (⟨.v6 0x20010db8000000000000000000000001, 0⟩ : Prefix).Addr.Is6 = true ∧
    (Set okExec MapOrder.insertion (newUserspaceRouter "tun0")
      (some ⟨[⟨.v6 0x20010db8000000000000000000000001, 0⟩], []⟩)).router.local6 =
      ⟨.v6 0x20010db8000000000000000000000001, 0⟩ ∧
    (Set okExec MapOrder.insertion (newUserspaceRouter "tun0")
      (some ⟨[⟨.v6 0x20010db8000000000000000000000001, 0⟩], []⟩)).router.local6.Bits = -1 ∧
    (Set okExec MapOrder.insertion (newUserspaceRouter "tun0")
      (some ⟨[⟨.v6 0x20010db8000000000000000000000001, 0⟩], []⟩)).router.local6 ≠
      ⟨.v6 0x20010db8000000000000000000000001, 49⟩ := by
  decide

/-- C19 as amended (the last attempted state of an accepted configuration):
for every applied state, every desired configuration with at least one local
address and at most one per family, its IPv6 local address (if any) a valid
prefix, and every outcome of the commands, after `Set` the stored `local4` is the
IPv4 prefix of the configuration (absent if it has none), `local6` is the
IPv6 address of the configuration with mask length 48 (absent if it has
none), and `routes` is the set of the routes of the configuration, without
duplicates. -/
theorem Set_stores_last_attempted (ex : Executor) (ord : MapOrder) (r : netbsdRouter)
    (cfg : Config) (hne : cfg.LocalAddrs ≠ [])
    (h4 : countIPv4 cfg.LocalAddrs ≤ 1) (h6 : countIPv6 cfg.LocalAddrs ≤ 1)
    (hv : ∀ p ∈ cfg.LocalAddrs, p.Addr.Is6 = true → p.IsValid = true) :
    (∀ p ∈ cfg.LocalAddrs, p.Addr.Is4 = true → (Set ex ord r (some cfg)).router.local4 = p) ∧
    (countIPv4 cfg.LocalAddrs = 0 → (Set ex ord r (some cfg)).router.local4 = ⟨.zero, 0⟩) ∧
    (∀ p ∈ cfg.LocalAddrs, p.Addr.Is6 = true →
      (Set ex ord r (some cfg)).router.local6 = ⟨p.Addr, 49⟩ ∧
      (Set ex ord r (some cfg)).router.local6.Bits = 48) ∧
    (countIPv6 cfg.LocalAddrs = 0 → (Set ex ord r (some cfg)).router.local6 = ⟨.zero, 0⟩) ∧
    (Set ex ord r (some cfg)).router.routes.Nodup ∧
    (Set ex ord r (some cfg)).router.routes.toFinset = cfg.Routes.toFinset := by
  rw [Set_of_accepted ex ord r cfg hne h4 h6]
  simp only []
  rw [scan_localAddr4 cfg h4, scan_localAddr6 cfg h6]
  refine ⟨?_, ?_, ?_, ?_, nodup_mkNewRoutes cfg.Routes, toFinset_mkNewRoutes cfg.Routes⟩
  · intro p hp hp4
    exact desired4_of_mem _ p h4 hp hp4
  · intro h0
    exact desired4_of_count_zero _ h0
  · intro p hp hp6
    rw [desired6_of_mem _ p h6 hp hp6, normalize6_of_valid p hp6 (hv p hp hp6)]
    exact ⟨rfl, by simp [netip.Prefix.Bits]⟩
  · intro h0
    rw [desired6_of_count_zero _ h0, normalize6_zero]

/-- The last attempted state at a concrete input: an IPv6 address with mask
length 64 and a route given twice, with every command failing. -/
theorem Set_stores_last_attempted_witness :
    (Set failExec MapOrder.insertion
      ⟨"tun0", prefix4 100 64 0 1 32, ⟨.zero, 0⟩, [prefix4 10 0 0 0 24]⟩
      (some ⟨[⟨.v6 0x20010db8000000000000000000000001, 65⟩],
        [prefix4 10 1 0 0 24, prefix4 10 1 0 0 24]⟩)).router.local4 = ⟨.zero, 0⟩ ∧
    (Set failExec MapOrder.insertion
      ⟨"tun0", prefix4 100 64 0 1 32, ⟨.zero, 0⟩, [prefix4 10 0 0 0 24]⟩
      (some ⟨[⟨.v6 0x20010db8000000000000000000000001, 65⟩],
        [prefix4 10 1 0 0 24, prefix4 10 1 0 0 24]⟩)).router.routes = [prefix4 10 1 0 0 24] :=
  ⟨(Set_stores_last_attempted failExec MapOrder.insertion
      ⟨"tun0", prefix4 100 64 0 1 32, ⟨.zero, 0⟩, [prefix4 10 0 0 0 24]⟩
      ⟨[⟨.v6 0x20010db8000000000000000000000001, 65⟩],
        [prefix4 10 1 0 0 24, prefix4 10 1 0 0 24]⟩
      (by decide) (by decide) (by decide) (by decide)).2.1 (by decide),
    by decide⟩

/-- C17 (the IPv6 comparison ignores the mask of the caller): for every IPv6
address `a` and mask lengths `m1`, `m2`, if the applied state was produced by
`Set` with the IPv6 local address `a/m1`, then a following `Set` whose IPv6
local address is `a/m2` runs no IPv6 address command and leaves `local6`
unchanged (whatever the IPv4 addresses and routes of the two configurations). -/
theorem Set_local6_mask_ignored (ex1 ex2 : Executor) (ord1 ord2 : MapOrder) (r : netbsdRouter)
    (cfg1 cfg2 : Config) (a m1 m2 : Nat)
    (hp1 : (⟨.v6 a, m1 + 1⟩ : Prefix) ∈ cfg1.LocalAddrs)
    (hp2 : (⟨.v6 a, m2 + 1⟩ : Prefix) ∈ cfg2.LocalAddrs)
    (h14 : countIPv4 cfg1.LocalAddrs ≤ 1) (h16 : countIPv6 cfg1.LocalAddrs ≤ 1)
    (h24 : countIPv4 cfg2.LocalAddrs ≤ 1) (h26 : countIPv6 cfg2.LocalAddrs ≤ 1) :
    (Set ex2 ord2 (Set ex1 ord1 r (some cfg1)).router (some cfg2)).cmds.filter
      (fun c => c.site.isLocal6) = [] ∧
    (Set ex2 ord2 (Set ex1 ord1 r (some cfg1)).router (some cfg2)).router.local6 =
      (Set ex1 ord1 r (some cfg1)).router.local6 := by
  have hn1 : (scanLocalAddrs cfg1.LocalAddrs).localAddr6 = ⟨.v6 a, m1 + 1⟩ := by
    rw [scan_localAddr6 cfg1 h16]
    exact desired6_of_mem _ _ h16 hp1 rfl
  have hn2 : (scanLocalAddrs cfg2.LocalAddrs).localAddr6 = ⟨.v6 a, m2 + 1⟩ := by
    rw [scan_localAddr6 cfg2 h26]
    exact desired6_of_mem _ _ h26 hp2 rfl
  have hv1 : normalize6 ⟨.v6 a, m1 + 1⟩ = ⟨.v6 a, 49⟩ :=
    normalize6_of_valid _ rfl (by simp [netip.Prefix.IsValid])
  have hv2 : normalize6 ⟨.v6 a, m2 + 1⟩ = ⟨.v6 a, 49⟩ :=
    normalize6_of_valid _ rfl (by simp [netip.Prefix.IsValid])
  rw [Set_of_accepted ex1 ord1 r cfg1 (List.ne_nil_of_mem hp1) h14 h16]
  simp only []
  rw [Set_of_accepted ex2 ord2 _ cfg2 (List.ne_nil_of_mem hp2) h24 h26]
  simp only []
  rw [filter_isLocal6_SetPlan, hn1, hn2, hv1, hv2]
  exact ⟨local6Cmds_self _ _, rfl⟩

/-- The mask of the caller at a concrete input: 2001:db8::1/64 applied, then
2001:db8::1/128 desired together with a new IPv4 address. -/
theorem Set_local6_mask_ignored_witness :
    (Set okExec MapOrder.insertion
      (Set okExec MapOrder.insertion (newUserspaceRouter "tun0")
        (some ⟨[⟨.v6 0x20010db8000000000000000000000001, 64 + 1⟩], []⟩)).router
      (some ⟨[prefix4 100 64 0 1 32, ⟨.v6 0x20010db8000000000000000000000001, 128 + 1⟩],
        []⟩)).cmds.filter (fun c => c.site.isLocal6) = [] :=
  (Set_local6_mask_ignored okExec okExec MapOrder.insertion MapOrder.insertion
    (newUserspaceRouter "tun0")
    ⟨[⟨.v6 0x20010db8000000000000000000000001, 64 + 1⟩], []⟩
    ⟨[prefix4 100 64 0 1 32, ⟨.v6 0x20010db8000000000000000000000001, 128 + 1⟩], []⟩
    0x20010db8000000000000000000000001 64 128
    (by decide) (by decide) (by decide) (by decide) (by decide) (by decide)).1

/-- C13 (route binding by family): for every command of the two route loops
that `Set` runs, the argument after `-iface` is the text of the local address
of the family of the route as the same call applies and stores it: the
address of the IPv4 local address of the configuration for an IPv4 prefix,
the address of its IPv6 local address (which the normalisation keeps) for an
IPv6 prefix; when the configuration has no local address of that family this
is the text of the absent address. -/
theorem Set_route_iface_by_family (ex : Executor) (ord : MapOrder) (r : netbsdRouter)
    (cfg : Option Config) (c : Cmd) (hc : c ∈ (Set ex ord r cfg).cmds) (p : Prefix)
    (hs : c.site = Site.routeDel p ∨ c.site = Site.routeAdd p) :
    c.argv[6]? = some "-iface" ∧
    (p.Addr.Is4 = true →
      c.argv[7]? = some (desired4 (desiredAddrs cfg)).Addr.String ∧
      c.argv[7]? = some (Set ex ord r cfg).router.local4.Addr.String) ∧
    (p.Addr.Is6 = true →
      c.argv[7]? = some (desired6 (desiredAddrs cfg)).Addr.String ∧
      c.argv[7]? = some (Set ex ord r cfg).router.local6.Addr.String) := by
  rcases cfg_cases cfg with h | ⟨k, rfl, h⟩ | ⟨k, rfl, hne, h4, h6⟩
  · rw [Set_of_no_addrs _ _ _ cfg h] at hc
    simp at hc
  · rw [Set_of_multiple _ _ _ k h] at hc
    simp at hc
  · rw [Set_of_accepted ex ord r k hne h4 h6] at hc ⊢
    simp only [] at hc ⊢
    have harg := SetPlan_route_argv ord r k c hc p
    have hc2 : c = routedel (scanLocalAddrs k.LocalAddrs).localAddr4
          (normalize6 (scanLocalAddrs k.LocalAddrs).localAddr6) p ∨
        c = routeadd (scanLocalAddrs k.LocalAddrs).localAddr4
          (normalize6 (scanLocalAddrs k.LocalAddrs).localAddr6) p := by
      rcases hs with hs | hs
      · exact Or.inl (harg.1 hs)
      · exact Or.inr (harg.2 hs)
    have h7 : c.argv[7]? = some (routeIface (scanLocalAddrs k.LocalAddrs).localAddr4
        (normalize6 (scanLocalAddrs k.LocalAddrs).localAddr6) p) := by
      rcases hc2 with rfl | rfl <;> simp [routedel, routeadd]
    have h6a : c.argv[6]? = some "-iface" := by
      rcases hc2 with rfl | rfl <;> simp [routedel, routeadd]
    refine ⟨h6a, ?_, ?_⟩
    · intro hp4
      have : routeIface (scanLocalAddrs k.LocalAddrs).localAddr4
          (normalize6 (scanLocalAddrs k.LocalAddrs).localAddr6) p =
          (scanLocalAddrs k.LocalAddrs).localAddr4.Addr.String := by
        simp [routeIface, Is6_false_of_Is4 _ hp4]
      rw [h7, this]
      refine ⟨?_, ?_⟩ <;> simp [desiredAddrs, scan_localAddr4 k h4]
    · intro hp6
      have : routeIface (scanLocalAddrs k.LocalAddrs).localAddr4
          (normalize6 (scanLocalAddrs k.LocalAddrs).localAddr6) p =
          (normalize6 (scanLocalAddrs k.LocalAddrs).localAddr6).Addr.String := by
        simp [routeIface, hp6]
      rw [h7, this]
      refine ⟨?_, ?_⟩ <;> simp [desiredAddrs, scan_localAddr6 k h6, normalize6_Addr]

/-- Route binding at a concrete input: with the local addresses 100.64.0.2/32
and 2001:db8::1/64, the IPv4 route 10.1.0.0/24 is bound to 100.64.0.2. -/
theorem Set_route_iface_by_family_witness :
    (["route", "-q", "-n", "add", "-inet", "10.1.0.0/24", "-iface", "100.64.0.2"] :
      List String)[7]? =
      some (desired4 (desiredAddrs (some ⟨[prefix4 100 64 0 2 32,
        ⟨.v6 0x20010db8000000000000000000000001, 65⟩],
        [prefix4 10 1 0 0 24, ⟨.v6 0xfd7a115ca1e00000000000000000abcd, 49⟩]⟩))).Addr.String :=
  ((Set_route_iface_by_family okExec MapOrder.insertion (newUserspaceRouter "tun0")
    (some ⟨[prefix4 100 64 0 2 32, ⟨.v6 0x20010db8000000000000000000000001, 65⟩],
      [prefix4 10 1 0 0 24, ⟨.v6 0xfd7a115ca1e00000000000000000abcd, 49⟩]⟩)
    ⟨.routeAdd (prefix4 10 1 0 0 24),
      ["route", "-q", "-n", "add", "-inet", "10.1.0.0/24", "-iface", "100.64.0.2"]⟩
    (by decide) (prefix4 10 1 0 0 24) (Or.inr rfl)).2.1 (by decide)).1

/-- C12 (canonical route destinations): for every valid route prefix `a/n`
that `Set` adds or deletes, the destination argument is the text of `a` with
all bits beyond the first `n` set to zero (the first `n` bits are those of
`a`, the others are zero), followed by `/n`; hence two valid prefixes of one
family with the same mask length whose addresses agree on the first `n` bits
give the same destination text. -/
theorem Set_route_destination_canonical (ex : Executor) (ord : MapOrder) (r : netbsdRouter)
    (cfg : Option Config) :
    (∀ c ∈ (Set ex ord r cfg).cmds, ∀ p,
      (c.site = Site.routeDel p ∨ c.site = Site.routeAdd p) → wellFormed p →
      c.argv[5]? =
        some (netIPString (clearHostBits p.Addr (p.bitsPlusOne - 1)) ++ "/" ++ toString p.Bits) ∧
      hostBits (clearHostBits p.Addr (p.bitsPlusOne - 1)) (p.bitsPlusOne - 1) = 0 ∧
      firstBits (clearHostBits p.Addr (p.bitsPlusOne - 1)) (p.bitsPlusOne - 1) =
        firstBits p.Addr (p.bitsPlusOne - 1)) ∧
    (∀ p q, wellFormed p → wellFormed q → p.Addr.Is4 = q.Addr.Is4 →
      p.bitsPlusOne = q.bitsPlusOne →
      firstBits p.Addr (p.bitsPlusOne - 1) = firstBits q.Addr (p.bitsPlusOne - 1) →
      routeDest p = routeDest q) := by
  constructor
  · intro c hc p hs hwf
    rcases cfg_cases cfg with h | ⟨k, rfl, h⟩ | ⟨k, rfl, hne, h4, h6⟩
    · rw [Set_of_no_addrs _ _ _ cfg h] at hc
      simp at hc
    · rw [Set_of_multiple _ _ _ k h] at hc
      simp at hc
    · rw [Set_of_accepted ex ord r k hne h4 h6] at hc
      simp only [] at hc
      have harg := SetPlan_route_argv ord r k c hc p
      refine ⟨?_, clearHostBits_bits _ _⟩
      rw [← routeDest_eq p hwf]
      rcases hs with hs | hs
      · rw [harg.1 hs]
        simp [routedel]
      · rw [harg.2 hs]
        simp [routeadd]
  · intro p q hp hq hf hb hfirst
    rw [routeDest_eq p hp, routeDest_eq q hq]
    have hpz : p.Addr ≠ .zero := by
      intro h0
      simp [wellFormed, netip.Prefix.Addr] at hp h0
      simp [h0] at hp
    have hqz : q.Addr ≠ .zero := by
      intro h0
      simp [wellFormed, netip.Prefix.Addr] at hq h0
      simp [h0] at hq
    rw [clearHostBits_eq_of_firstBits p.Addr q.Addr (p.bitsPlusOne - 1) hf hpz hqz hfirst]
    simp [netip.Prefix.Bits, hb]

/-- Canonical destinations at a concrete input: the route 10.0.0.5/24 is
added with the destination 10.0.0.0/24, the text that 10.0.0.0/24 gives too. -/
theorem Set_route_destination_canonical_witness :
    (["route", "-q", "-n", "add", "-inet", "10.0.0.0/24", "-iface", "100.64.0.1"] :
      List String)[5]? =
      some (netIPString (clearHostBits (prefix4 10 0 0 5 24).Addr
        ((prefix4 10 0 0 5 24).bitsPlusOne - 1)) ++ "/" ++ toString (prefix4 10 0 0 5 24).Bits) ∧
    routeDest (prefix4 10 0 0 5 24) = routeDest (prefix4 10 0 0 0 24) ∧
    routeDest (prefix4 10 0 0 5 24) = "10.0.0.0/24" :=
  ⟨((Set_route_destination_canonical okExec MapOrder.insertion
      ⟨"tun0", prefix4 100 64 0 1 32, ⟨.zero, 0⟩, []⟩
      (some ⟨[prefix4 100 64 0 1 32], [prefix4 10 0 0 5 24]⟩)).1
      ⟨.routeAdd (prefix4 10 0 0 5 24),
        ["route", "-q", "-n", "add", "-inet", "10.0.0.0/24", "-iface", "100.64.0.1"]⟩
      (by decide) (prefix4 10 0 0 5 24) (Or.inr rfl) (by decide)).1,
    (Set_route_destination_canonical okExec MapOrder.insertion
      ⟨"tun0", prefix4 100 64 0 1 32, ⟨.zero, 0⟩, []⟩
      (some ⟨[prefix4 100 64 0 1 32], [prefix4 10 0 0 5 24]⟩)).2
      (prefix4 10 0 0 5 24) (prefix4 10 0 0 0 24) (by decide) (by decide) (by decide)
      (by decide) (by decide),
    by decide⟩

/-- C11 as stated fails: replacing the IPv6 address and one route, `Set` runs
an IPv6 address delete that ends in `delete`, an IPv6 address add of four
words without `alias`, and a route delete with the word `del`; none of the
three matches the grammar of the specification. -/
theorem Set_cmds_outside_specGrammar :
    (Set okExec MapOrder.insertion
      ⟨"tun0", prefix4 100 64 0 1 32, ⟨.v6 0x20010db8000000000000000000000001, 49⟩,
        [prefix4 10 0 0 0 24]⟩
      (some ⟨[prefix4 100 64 0 1 32, ⟨.v6 0xfd7a115ca1e00000000000000000abcd, 129⟩],
        [prefix4 10 1 0 0 24]⟩)).cmds.map Cmd.argv =
      [["ifconfig", "tun0", "inet6", "2001:db8::1/48", "delete"],
       ["ifconfig", "tun0", "inet6", "fd7a:115c:a1e0::abcd/48"],
       ["route", "-q", "-n", "del", "-inet", "10.0.0.0/24", "-iface", "100.64.0.1"],
       ["route", "-q", "-n", "add", "-inet", "10.1.0.0/24", "-iface", "100.64.0.1"]] ∧
    (Set okExec MapOrder.insertion
      ⟨"tun0", prefix4 100 64 0 1 32, ⟨.v6 0x20010db8000000000000000000000001, 49⟩,
        [prefix4 10 0 0 0 24]⟩
      (some ⟨[prefix4 100 64 0 1 32, ⟨.v6 0xfd7a115ca1e00000000000000000abcd, 129⟩],
        [prefix4 10 1 0 0 24]⟩)).cmds.map (fun c => specGrammar c.argv) =
      [false, false, false, true] := by
  decide

/-- C11 as amended (command grammar): every command `Set` runs has a fixed
shape given by the place that runs it. The IPv4 address commands are
`ifconfig <iface> inet <addr/mask> -alias` and `... alias`; the IPv6 address
delete is `ifconfig <iface> inet6 <addr/mask> delete` and the IPv6 address add
is `ifconfig <iface> inet6 <addr/mask>`; the companion host routes are
`route -q -n delete|add -inet <addr/mask> -iface <addr>`; the route adds are
`route -q -n add <flag> <dest/mask> -iface <addr>` and the route deletes have
the same shape with their own verb, where the flag is `-inet6` exactly for
IPv6 prefixes and `-inet` for every other prefix. -/
theorem Set_command_grammar (ex : Executor) (ord : MapOrder) (r : netbsdRouter)
    (cfg : Option Config) (c : Cmd) (hc : c ∈ (Set ex ord r cfg).cmds) :
    (c.site = Site.addr4Del →
      c.argv = ["ifconfig", r.tunname, "inet", r.local4.String, "-alias"]) ∧
    (c.site = Site.host4Del →
      c.argv = ["route", "-q", "-n", "delete", "-inet", r.local4.String,
        "-iface", r.local4.Addr.String]) ∧
    (c.site = Site.addr4Add →
      c.argv = ["ifconfig", r.tunname, "inet", (desired4 (desiredAddrs cfg)).String, "alias"]) ∧
    (c.site = Site.host4Add →
      c.argv = ["route", "-q", "-n", "add", "-inet", (desired4 (desiredAddrs cfg)).String,
        "-iface", (desired4 (desiredAddrs cfg)).Addr.String]) ∧
    (c.site = Site.addr6Del →
      c.argv = ["ifconfig", r.tunname, "inet6", r.local6.String, "delete"]) ∧
    (c.site = Site.addr6Add →
      c.argv = ["ifconfig", r.tunname, "inet6",
        (normalize6 (desired6 (desiredAddrs cfg))).String]) ∧
    (∀ p, c.site = Site.routeAdd p → ∃ addr,
      c.argv = ["route", "-q", "-n", "add", familyFlag p, routeDest p, "-iface", addr]) ∧
    (∀ p, c.site = Site.routeDel p → ∃ verb addr,
      c.argv = ["route", "-q", "-n", verb, familyFlag p, routeDest p, "-iface", addr]) := by
  rcases cfg_cases cfg with h | ⟨k, rfl, h⟩ | ⟨k, rfl, hne, h4, h6⟩
  · rw [Set_of_no_addrs _ _ _ cfg h] at hc
    simp at hc
  · rw [Set_of_multiple _ _ _ k h] at hc
    simp at hc
  · rw [Set_of_accepted ex ord r k hne h4 h6] at hc
    simp only [] at hc
    simp only [desiredAddrs]
    rw [← scan_localAddr4 k h4, ← scan_localAddr6 k h6]
    rcases mem_SetPlan_cases ord r k c hc with h | h | ⟨p, rfl⟩ | ⟨p, rfl⟩
    · have ha := local4Cmds_argv _ _ _ c h
      have hs := local4Cmds_isLocal4 _ _ _ c h
      refine ⟨ha.1, ha.2.1, ha.2.2.1, ha.2.2.2, ?_, ?_, ?_, ?_⟩ <;>
        intros <;> simp_all [Site.isLocal4]
    · have ha := local6Cmds_argv _ _ _ c h
      have hs := local6Cmds_site _ _ _ c h
      refine ⟨?_, ?_, ?_, ?_, ha.1, ha.2, ?_, ?_⟩ <;>
        intros <;> rcases hs with hs | hs <;> simp_all
    · refine ⟨?_, ?_, ?_, ?_, ?_, ?_, ?_, ?_⟩ <;> intros <;>
        simp_all [routedel, familyFlag, inet]
      split <;> rfl
    · refine ⟨?_, ?_, ?_, ?_, ?_, ?_, ?_, ?_⟩ <;> intros <;>
        simp_all [routeadd, familyFlag, inet]
      split <;> rfl

/-- The command grammar at a concrete input: the IPv6 address add of the
address fd7a:115c:a1e0::abcd/128 has four words. -/
theorem Set_command_grammar_witness :
    (⟨.addr6Add, ["ifconfig", "tun0", "inet6", "fd7a:115c:a1e0::abcd/48"]⟩ : Cmd).argv =
      ["ifconfig", "tun0", "inet6",
        (normalize6 (desired6 (desiredAddrs (some ⟨[prefix4 100 64 0 1 32,
          ⟨.v6 0xfd7a115ca1e00000000000000000abcd, 129⟩], [prefix4 10 1 0 0 24]⟩)))).String] :=
  (Set_command_grammar okExec MapOrder.insertion
    ⟨"tun0", prefix4 100 64 0 1 32, ⟨.v6 0x20010db8000000000000000000000001, 49⟩,
      [prefix4 10 0 0 0 24]⟩
    (some ⟨[prefix4 100 64 0 1 32, ⟨.v6 0xfd7a115ca1e00000000000000000abcd, 129⟩],
      [prefix4 10 1 0 0 24]⟩)
    ⟨.addr6Add, ["ifconfig", "tun0", "inet6", "fd7a:115c:a1e0::abcd/48"]⟩
    (by decide)).2.2.2.2.2.1 rfl

/-- C14 (bounded readiness wait that never fails): provided the initial
`ifconfig <tun> inet 100.64.0.1/32 up` succeeds, `Up` returns no error for
every behaviour of the later commands and status queries, and runs at most 80
status queries; when no status query ever shows the interface up, it runs
exactly 80 of them and still returns no error. -/
theorem Up_bounded_wait (ex : UpExecutor) (tunname : String)
    (h : (ex [] ["ifconfig", tunname, "inet", "100.64.0.1/32", "up"]).2 = none) :
    (Up ex tunname).err = none ∧
    (Up ex tunname).cmds.countP (fun c => decide (c.site = UpSite.check)) ≤ 80 ∧
    ((∀ hist, ¬ ((ex hist ["ifconfig", tunname]).2 = none ∧
        (ex hist ["ifconfig", tunname]).1.length > 0 ∧
        stringsContains (ex hist ["ifconfig", tunname]).1 "status: down" = false)) →
      (Up ex tunname).cmds.countP (fun c => decide (c.site = UpSite.check)) = 80 ∧
      (Up ex tunname).err = none) := by
  have hup : Up ex tunname =
      ⟨(checkLoop ex tunname 80
          ([⟨UpSite.ifup, ["ifconfig", tunname, "inet", "100.64.0.1/32", "up"]⟩] ++ sysctlCmds ++
            [⟨UpSite.inetInit, ["sudo ifconfig tun0 inet 100.64.0.1/32 up"]⟩])).1,
        (checkLoop ex tunname 80
          ([⟨UpSite.ifup, ["ifconfig", tunname, "inet", "100.64.0.1/32", "up"]⟩] ++ sysctlCmds ++
            [⟨UpSite.inetInit, ["sudo ifconfig tun0 inet 100.64.0.1/32 up"]⟩])).2⟩ := by
    unfold Up
    simp only [h]
  obtain ⟨herr, k, hk, hlog⟩ := checkLoop_spec ex tunname 80
    ([⟨UpSite.ifup, ["ifconfig", tunname, "inet", "100.64.0.1/32", "up"]⟩] ++ sysctlCmds ++
      [⟨UpSite.inetInit, ["sudo ifconfig tun0 inet 100.64.0.1/32 up"]⟩])
  rw [hup]
  simp only []
  refine ⟨herr, ?_, ?_⟩
  · rw [hlog, List.countP_append, countP_check_prelude, countP_check_replicate]
    omega
  · intro hdown
    rw [checkLoop_never_up ex tunname hdown, List.countP_append, countP_check_prelude,
      countP_check_replicate]
    exact ⟨by omega, herr⟩

/-- The readiness wait at a concrete input: every status query fails, `Up`
runs 80 of them and returns no error. -/
theorem Up_bounded_wait_witness :
    (Up queriesFail "tun0").cmds.countP (fun c => decide (c.site = UpSite.check)) = 80 ∧
    (Up queriesFail "tun0").err = none :=
  (Up_bounded_wait queriesFail "tun0" (by decide)).2.2 (by
    intro hist
    simp [queriesFail])

end osrouter

namespace tailscaled

/-! ## Lines -/

theorem splitLines_ne_nil (s : List Char) : splitLines s ≠ [] := by
  induction s with
  | nil => simp [splitLines]
  | cons c cs ih =>
    unfold splitLines
    by_cases h : c = '\n'
    · simp [h]
    · rw [if_neg h]
      cases hs : splitLines cs <;> simp

theorem splitLines_cons_of_ne (c : Char) (cs : List Char) (h : c ≠ '\n') :
    ∃ l ls, splitLines cs = l :: ls ∧ splitLines (c :: cs) = (c :: l) :: ls := by
  cases hs : splitLines cs with
  | nil => exact absurd hs (splitLines_ne_nil cs)
  | cons l ls =>
    refine ⟨l, ls, rfl, ?_⟩
    rw [splitLines, if_neg h, hs]

theorem splitLines_cons_newline (cs : List Char) :
    splitLines ('\n' :: cs) = [] :: splitLines cs := by
  rw [splitLines, if_pos rfl]

theorem not_newline_mem_of_mem_splitLines (s : List Char) :
    ∀ l ∈ splitLines s, '\n' ∉ l := by
  induction s with
  | nil =>
    intro l hl
    simp [splitLines] at hl
    simp [hl]
  | cons c cs ih =>
    intro l hl
    by_cases h : c = '\n'
    · subst h
      rw [splitLines_cons_newline] at hl
      rcases List.mem_cons.mp hl with rfl | hl
      · simp
      · exact ih l hl
    · obtain ⟨l0, ls, hs, hcs⟩ := splitLines_cons_of_ne c cs h
      rw [hcs] at hl
      rcases List.mem_cons.mp hl with rfl | hl
      · intro hmem
        rcases List.mem_cons.mp hmem with heq | hmem
        · exact h heq.symm
        · exact ih l0 (by rw [hs]; exact List.mem_cons_self _ _) hmem
      · exact ih l (by rw [hs]; exact List.mem_cons_of_mem _ hl)

theorem splitLines_append_newline (a b : List Char) :
    splitLines (a ++ '\n' :: b) = splitLines a ++ splitLines b := by
  induction a with
  | nil => simp [splitLines]
  | cons c a ih =>
    by_cases h : c = '\n'
    · subst h
      rw [List.cons_append, splitLines_cons_newline, splitLines_cons_newline, ih]
      rfl
    · obtain ⟨l, ls, hs, hcs⟩ := splitLines_cons_of_ne c a h
      rw [hcs, List.cons_append, splitLines, if_neg h, ih, hs]
      rfl

theorem splitLines_of_no_newline (l : List Char) (h : '\n' ∉ l) : splitLines l = [l] := by
  induction l with
  | nil => rfl
  | cons c cs ih =>
    have hc : c ≠ '\n' := fun hc => h (hc ▸ List.mem_cons_self _ _)
    have hcs : '\n' ∉ cs := fun hm => h (List.mem_cons_of_mem _ hm)
    rw [splitLines, if_neg hc, ih hcs]

theorem splitLines_joinLines (ls : List (List Char)) (hne : ls ≠ [])
    (h : ∀ l ∈ ls, '\n' ∉ l) : splitLines (joinLines ls) = ls := by
  induction ls with
  | nil => exact absurd rfl hne
  | cons l rest ih =>
    cases rest with
    | nil => exact splitLines_of_no_newline l (h l (List.mem_cons_self _ _))
    | cons l2 rest =>
      rw [joinLines, splitLines_append_newline,
        splitLines_of_no_newline l (h l (List.mem_cons_self _ _)),
        ih (by simp) (fun x hx => h x (List.mem_cons_of_mem _ hx))]
      rfl

theorem joinLines_eq_nil (l : List Char) (rest : List (List Char))
    (h : joinLines (l :: rest) = []) : l = [] := by
  cases rest with
  | nil => simpa [joinLines] using h
  | cons l2 rest => simp [joinLines] at h

theorem mem_of_getLast?_joinLines (ls : List (List Char)) (h : ∀ l ∈ ls, l ≠ []) (c : Char)
    (hc : (joinLines ls).getLast? = some c) : ∃ l ∈ ls, c ∈ l := by
  induction ls with
  | nil => simp [joinLines] at hc
  | cons l rest ih =>
    cases rest with
    | nil =>
      simp only [joinLines] at hc
      exact ⟨l, List.mem_cons_self _ _, List.mem_of_getLast?_eq_some hc⟩
    | cons l2 rest =>
      have hJ : joinLines (l2 :: rest) ≠ [] := fun h0 =>
        h l2 (by simp) (joinLines_eq_nil l2 rest h0)
      rw [joinLines, List.getLast?_append_of_ne_nil _ (by simp)] at hc
      obtain ⟨y, ys, hy⟩ := List.exists_cons_of_ne_nil hJ
      rw [hy, List.getLast?_cons_cons, ← hy] at hc
      obtain ⟨x, hx, hcx⟩ := ih (fun x hx => h x (List.mem_cons_of_mem _ hx)) hc
      exact ⟨x, List.mem_cons_of_mem _ hx, hcx⟩

theorem trimSpace_nil : trimSpace [] = [] := by
  simp [trimSpace, List.rdropWhile]

theorem ne_nil_of_keepLine (serviceName l : List Char) (h : keepLine serviceName l = true) :
    l ≠ [] := by
  intro h0
  subst h0
  simp [keepLine, trimSpace_nil] at h

theorem hasPrefix_false_of_keepLine (serviceName l : List Char)
    (h : keepLine serviceName l = true) :
    hasPrefix (trimSpace l) (serviceName ++ ['=']) = false := by
  simp only [keepLine, Bool.and_eq_true, Bool.not_eq_true'] at h
  exact h.2

theorem hasPrefix_nil_false (serviceName : List Char) :
    hasPrefix (trimSpace []) (serviceName ++ ['=']) = false := by
  rw [trimSpace_nil]
  cases serviceName <;> rfl

theorem endsWithNewline_joinLines_kept (data serviceName : List Char) :
    endsWithNewline (joinLines ((splitLines data).filter (keepLine serviceName))) = false := by
  cases hl : (joinLines ((splitLines data).filter (keepLine serviceName))).getLast? with
  | none => simp [endsWithNewline, hl]
  | some c =>
    obtain ⟨l, hlmem, hcl⟩ := mem_of_getLast?_joinLines _
      (fun l hl => ne_nil_of_keepLine serviceName l (List.mem_filter.mp hl).2) c hl
    have hnl := not_newline_mem_of_mem_splitLines data l (List.mem_filter.mp hlmem).1
    have hc : c ≠ '\n' := fun h0 => hnl (h0 ▸ hcl)
    simp [endsWithNewline, hl, hc]

theorem removeFromRcConf_eq (data serviceName : List Char) :
    removeFromRcConf data serviceName =
      joinLines ((splitLines data).filter (keepLine serviceName)) ++
        (if endsWithNewline data = true then ['\n'] else []) := by
  unfold removeFromRcConf
  simp only [endsWithNewline_joinLines_kept]
  by_cases h : data.getLast? = some '\n'
  · have hlen : data.length > 0 := by
      cases data with
      | nil => simp at h
      | cons c cs => simp
    simp [h, hlen, endsWithNewline]
  · simp [h, endsWithNewline]

theorem mem_splitLines_joinLines_kept (data serviceName l : List Char)
    (hl : l ∈ splitLines (joinLines ((splitLines data).filter (keepLine serviceName)))) :
    l = [] ∨ l ∈ (splitLines data).filter (keepLine serviceName) := by
  by_cases hk : (splitLines data).filter (keepLine serviceName) = []
  · rw [hk] at hl
    simp [joinLines, splitLines] at hl
    exact Or.inl hl
  · rw [splitLines_joinLines _ hk (fun x hx =>
      not_newline_mem_of_mem_splitLines data x (List.mem_filter.mp hx).1)] at hl
    exact Or.inr hl

theorem keepLine_eq (serviceName : List Char) :
    keepLine serviceName = fun l =>
      decide (trimSpace l ≠ [] ∧ hasPrefix (trimSpace l) (serviceName ++ ['=']) = false) := by
  funext l
  by_cases h : trimSpace l = [] <;> simp [keepLine, h]

theorem exists_concat_of_endsWithNewline (s : List Char) (h : endsWithNewline s = true) :
    ∃ x, s = x ++ ['\n'] := by
  simp only [endsWithNewline, beq_iff_eq] at h
  exact List.getLast?_eq_some_iff.mp h

theorem mem_splitLines_appended (pre line : List Char) (hnl : '\n' ∉ line)
    (hpre : pre = [] ∨ ∃ x, pre = x ++ ['\n']) :
    line ∈ splitLines (pre ++ line ++ ['\n']) := by
  have hline : splitLines (line ++ ['\n']) = [line, []] := by
    rw [show line ++ ['\n'] = line ++ '\n' :: [] from rfl, splitLines_append_newline,
      splitLines_of_no_newline line hnl]
    rfl
  rcases hpre with rfl | ⟨x, rfl⟩
  · rw [List.nil_append, hline]
    simp
  · rw [List.append_assoc, List.append_assoc,
      show [('\n' : Char)] ++ (line ++ ['\n']) = '\n' :: (line ++ ['\n']) from rfl,
      splitLines_append_newline, hline]
    simp

/-! ## The properties of the service registration -/

/-- C15 (`removeFromRcConf` as a function on the content): for every content
and service name, the output has no line whose trimmed text starts with the
service name followed by `=`, and the output ends with a newline if and only
if the input does. -/
theorem removeFromRcConf_no_service_line (data serviceName : List Char) :
    (∀ l ∈ splitLines (removeFromRcConf data serviceName),
      hasPrefix (trimSpace l) (serviceName ++ ['=']) = false) ∧
    (endsWithNewline (removeFromRcConf data serviceName) = true ↔
      endsWithNewline data = true) := by
  rw [removeFromRcConf_eq]
  have hline : ∀ l, l = [] ∨ l ∈ (splitLines data).filter (keepLine serviceName) →
      hasPrefix (trimSpace l) (serviceName ++ ['=']) = false := by
    intro l hl
    rcases hl with rfl | hl
    · exact hasPrefix_nil_false serviceName
    · exact hasPrefix_false_of_keepLine serviceName l (List.mem_filter.mp hl).2
  by_cases hd : endsWithNewline data = true
  · simp only [hd, if_true]
    constructor
    · intro l hl
      rw [show joinLines ((splitLines data).filter (keepLine serviceName)) ++ ['\n'] =
          joinLines ((splitLines data).filter (keepLine serviceName)) ++ '\n' :: [] from rfl,
        splitLines_append_newline] at hl
      rcases List.mem_append.mp hl with hl | hl
      · exact hline l (mem_splitLines_joinLines_kept data serviceName l hl)
      · simp [splitLines] at hl
        exact hline l (Or.inl hl)
    · simp [endsWithNewline, List.getLast?_concat]
  · have hd2 : endsWithNewline data = false := by simpa using hd
    simp only [hd2, Bool.false_eq_true, if_false, List.append_nil]
    constructor
    · intro l hl
      exact hline l (mem_splitLines_joinLines_kept data serviceName l hl)
    · simp [endsWithNewline_joinLines_kept]

/-- C20 (`removeFromRcConf` keeps exactly the other lines): for every content
and service name, the output, apart from the final newline restored when the
input ends with one, is the input lines whose trimmed text is not empty and
does not start with the service name followed by `=`, in their order and
unchanged, joined by newlines; so blank lines and lines of white space are
removed as well as the lines of the service. -/
theorem removeFromRcConf_keeps_lines (data serviceName : List Char) :
    removeFromRcConf data serviceName =
      joinLines ((splitLines data).filter fun l =>
        decide (trimSpace l ≠ [] ∧ hasPrefix (trimSpace l) (serviceName ++ ['=']) = false)) ++
        (if endsWithNewline data = true then ['\n'] else []) ∧
    (((splitLines data).filter fun l =>
        decide (trimSpace l ≠ [] ∧ hasPrefix (trimSpace l) (serviceName ++ ['=']) = false)) ≠ [] →
      splitLines (joinLines ((splitLines data).filter fun l =>
        decide (trimSpace l ≠ [] ∧ hasPrefix (trimSpace l) (serviceName ++ ['=']) = false))) =
      (splitLines data).filter fun l =>
        decide (trimSpace l ≠ [] ∧ hasPrefix (trimSpace l) (serviceName ++ ['=']) = false)) := by
  rw [← keepLine_eq]
  refine ⟨removeFromRcConf_eq data serviceName, ?_⟩
  intro hk
  exact splitLines_joinLines _ hk (fun x hx =>
    not_newline_mem_of_mem_splitLines data x (List.mem_filter.mp hx).1)

/-- The kept lines at a concrete input: a service line with white space
around it, a blank line and a line of white space are removed, the two other
lines stay, and the final newline is restored. -/
theorem removeFromRcConf_keeps_lines_witness :
    removeFromRcConf "sshd=YES\n  tailscaled=YES \n\n \t\nfoo=1\n".toList "tailscaled".toList =
      "sshd=YES\nfoo=1\n".toList ∧
    splitLines (joinLines ((splitLines "sshd=YES\n  tailscaled=YES \n\n \t\nfoo=1\n".toList).filter
      fun l => decide (trimSpace l ≠ [] ∧
        hasPrefix (trimSpace l) ("tailscaled".toList ++ ['=']) = false))) =
      ["sshd=YES".toList, "foo=1".toList] :=
  ⟨by decide,
    ((removeFromRcConf_keeps_lines "sshd=YES\n  tailscaled=YES \n\n \t\nfoo=1\n".toList
      "tailscaled".toList).2 (by decide)).trans (by decide)⟩

/-- C16 as stated fails: the content has the line ` tailscaled=YES`, with a
leading blank, so no line of it equals `tailscaled=YES`, yet `addToRcConf`
writes nothing and the line is not appended. -/
theorem addToRcConf_trimmed_match_not_appended :
    "tailscaled=YES".toList ∉ splitLines " tailscaled=YES\n".toList ∧
    '\n' ∉ "tailscaled=YES".toList ∧
    trimSpace "tailscaled=YES".toList = "tailscaled=YES".toList ∧
    addToRcConf " tailscaled=YES\n".toList "tailscaled=YES".toList = none ∧
    afterAdd " tailscaled=YES\n".toList "tailscaled=YES".toList = " tailscaled=YES\n".toList := by
  decide

/-- C16 as amended (`addToRcConf` is idempotent): for every content and every
line without newline and without leading or trailing white space, if some
line of the content equals that line after trimming white space (in
particular if it equals it) nothing is written and the content stays as it
is, and otherwise the line is appended as a new last line, after a newline
when the content is not empty and does not end with one; so applying
`addToRcConf` twice with the same line gives the same content as applying it
once, with the line occurring equally often. -/
theorem addToRcConf_idempotent (content line : List Char) (hnl : '\n' ∉ line)
    (htrim : trimSpace line = line) :
    ((∃ l ∈ splitLines content, trimSpace l = line) → addToRcConf content line = none) ∧
    (line ∈ splitLines content → addToRcConf content line = none) ∧
    ((¬ ∃ l ∈ splitLines content, trimSpace l = line) →
      addToRcConf content line =
        some (content ++
          (if content ≠ [] ∧ endsWithNewline content = false then ['\n'] else []) ++
          line ++ ['\n'])) ∧
    afterAdd (afterAdd content line) line = afterAdd content line ∧
    (splitLines (afterAdd (afterAdd content line) line)).count line =
      (splitLines (afterAdd content line)).count line := by
  have hnone : ∀ c : List Char, (∃ l ∈ splitLines c, trimSpace l = line) →
      addToRcConf c line = none := by
    intro c hex
    have hany : (splitLines c).any (fun l => trimSpace l == line) = true := by
      rw [List.any_eq_true]
      obtain ⟨l, hl, hlt⟩ := hex
      exact ⟨l, hl, by simp [hlt]⟩
    simp [addToRcConf, hany]
  have hsome : (¬ ∃ l ∈ splitLines content, trimSpace l = line) →
      addToRcConf content line =
        some (content ++
          (if content ≠ [] ∧ endsWithNewline content = false then ['\n'] else []) ++
          line ++ ['\n']) := by
    intro hex
    have hany : (splitLines content).any (fun l => trimSpace l == line) = false := by
      rw [Bool.eq_false_iff]
      intro h
      rw [List.any_eq_true] at h
      obtain ⟨l, hl, hlt⟩ := h
      exact hex ⟨l, hl, by simpa using hlt⟩
    simp only [addToRcConf, hany]
    by_cases h1 : content = []
    · simp [h1]
    · have hlen : content.length > 0 := List.length_pos.mpr h1
      by_cases h2 : endsWithNewline content = false <;> simp [h1, hlen, h2]
  have hidem : afterAdd (afterAdd content line) line = afterAdd content line := by
    by_cases hex : ∃ l ∈ splitLines content, trimSpace l = line
    · have h1 : afterAdd content line = content := by simp [afterAdd, hnone content hex]
      rw [h1, h1]
    · have h1 : afterAdd content line = content ++
          (if content ≠ [] ∧ endsWithNewline content = false then ['\n'] else []) ++
          line ++ ['\n'] := by simp [afterAdd, hsome hex]
      have hpre : content ++
          (if content ≠ [] ∧ endsWithNewline content = false then ['\n'] else []) = [] ∨
          ∃ x, content ++
            (if content ≠ [] ∧ endsWithNewline content = false then ['\n'] else []) =
            x ++ ['\n'] := by
        by_cases hc : content = []
        · left
          simp [hc]
        · right
          by_cases he : endsWithNewline content = false
          · exact ⟨content, by simp [hc, he]⟩
          · have he2 : endsWithNewline content = true := by simpa using he
            obtain ⟨x, hx⟩ := exists_concat_of_endsWithNewline content he2
            refine ⟨x, ?_⟩
            rw [if_neg (fun h => by simp [he2] at h), List.append_nil]
            exact hx
      have hmem := mem_splitLines_appended _ line hnl hpre
      rw [← h1] at hmem
      have h2 := hnone (afterAdd content line) ⟨line, hmem, htrim⟩
      show (addToRcConf (afterAdd content line) line).getD (afterAdd content line) =
        afterAdd content line
      rw [h2]
      rfl
  refine ⟨hnone content, fun hl => hnone content ⟨line, hl, htrim⟩, hsome, hidem, ?_⟩
  rw [hidem]

/-- The idempotence at a concrete input: `tailscaled=YES` is appended to a
content without a final newline, and a second application changes nothing. -/
theorem addToRcConf_idempotent_witness :
    afterAdd "sshd=YES".toList "tailscaled=YES".toList = "sshd=YES\ntailscaled=YES\n".toList ∧
    afterAdd (afterAdd "sshd=YES".toList "tailscaled=YES".toList) "tailscaled=YES".toList =
      afterAdd "sshd=YES".toList "tailscaled=YES".toList :=
  ⟨by decide,
    (addToRcConf_idempotent "sshd=YES".toList "tailscaled=YES".toList (by decide)
      (by decide)).2.2.2.1⟩

end tailscaled
